import Mathlib

/-!
# Verification of the LittleRound chassis-controller firmware

A shallow embedding of the firmware components referenced by the spec:
PID controller (`Src/Algorithm/pid.c`), two-wheel differential kinematics
(`Src/MotionControl/two_wheel_kinematic.c`), the differential chassis
(`Src/MotionControl/two_wheel_differential.c`), the WFLY receiver
normalization (`Src/Devices/rc_receiver_wfly.c`), the chassis-motion
supervisor tick (`Src/MotionControl/chassis_motion.c`), the UDP helper and
ROS reply path (`Src/MiddleWare/udp.c`, `Src/ROS_Interface/ros_interface.c`),
the persistent store file (`Src/DataStore/store_file.c`) and the odometry
integrator (`Src/MotionControl/two_wheel_odometry.c`).

`float` arithmetic is idealized as exact arithmetic over `ℚ` (or `ℝ` where
trigonometry is involved); machine integers are `Nat` with truncation made
explicit where it matters.  The SPI-NOR driver (`w25qxx.c`) is abstracted as
a byte-addressable memory, which is the contract the store file relies on
(the driver performs the necessary erasures transparently).
-/

/- ------------------------------------------------------------------ -/
/- PID controller, from `Src/Algorithm/pid.c`.                         -/
/- ------------------------------------------------------------------ -/

/-- State of `PID_t` (pid.h / pid.c): gains, setpoint (`object`),
integral accumulator and previous error. -/
structure PID_t where
  kP : ℚ
  kI : ℚ
  kD : ℚ
  object : ℚ
  sumError : ℚ
  lastError : ℚ
deriving DecidableEq

/-- `MAX_SUM_ERROR` from pid.c. -/
def MAX_SUM_ERROR : ℚ := 1000

/-- `PID_Init` from pid.c: gains set, accumulators and setpoint zeroed. -/
def PID_Init (kP kI kD : ℚ) : PID_t :=
  { kP := kP, kI := kI, kD := kD, object := 0, sumError := 0, lastError := 0 }

/-- `PID_SetObject` from pid.c: only the setpoint is written (the resets of
`lastError` and `sumError` are commented out in the source). -/
def PID_SetObject (pid : PID_t) (object : ℚ) : PID_t :=
  { pid with object := object }

/-- `PID_Calc` from pid.c: returns the controller output together with the
updated state. -/
def PID_Calc (pid : PID_t) (measurement : ℚ) : ℚ × PID_t :=
  let error := pid.object - measurement
  let differentialError := error - pid.lastError
  let sum0 := pid.sumError + error
  let sum1 :=
    if sum0 > MAX_SUM_ERROR then MAX_SUM_ERROR
    else if sum0 < -MAX_SUM_ERROR then -MAX_SUM_ERROR
    else sum0
  (pid.kP * error + pid.kI * sum1 + pid.kD * differentialError,
   { pid with sumError := sum1, lastError := error })

/-- Iterated `PID_Calc` over a list of measurements (N calls). -/
def PID_CalcSeq (pid : PID_t) : List ℚ → PID_t
  | [] => pid
  | m :: ms => PID_CalcSeq (PID_Calc pid m).2 ms

/- ------------------------------------------------------------------ -/
/- Two-wheel differential kinematics,                                  -/
/- from `Src/MotionControl/two_wheel_kinematic.c`.                     -/
/- The wheel radius and track width come from the data store; they are  -/
/- passed here as explicit parameters.                                 -/
/- ------------------------------------------------------------------ -/

/-- `TwoWheelDifferentialKinematic_Inverse` from two_wheel_kinematic.c:
(v, omega) to the pair (left, right) of wheel angular speeds. -/
def TwoWheelDifferentialKinematic_Inverse (wheelRadius trackWidth velocity omega : ℚ) :
    ℚ × ℚ :=
  let leftWheelSpeed := velocity - (trackWidth / 2) * omega
  let rightWheelSpeed := velocity + (trackWidth / 2) * omega
  (leftWheelSpeed / wheelRadius, rightWheelSpeed / wheelRadius)

/-- `TwoWheelDifferentialKinematic_Forward` from two_wheel_kinematic.c:
wheel angular speeds (left, right) to (v, omega). -/
def TwoWheelDifferentialKinematic_Forward (wheelRadius trackWidth wheelL wheelR : ℚ) :
    ℚ × ℚ :=
  let linearL := wheelL * wheelRadius
  let linearR := wheelR * wheelRadius
  ((linearL + linearR) / 2, (linearR - linearL) / trackWidth)

/-- `ChassisTwoWheelDifferential_SetMotion` from two_wheel_differential.c:
the requested (v, omega) is handed to the inverse kinematics and the two
wheel angular-speed setpoints are sent to the motors.  The maxima loaded by
`ChassisTwoWheelDifferential_Init` are received here as parameters to make
their (non-)use visible: the source performs no clamping. -/
def ChassisTwoWheelDifferential_SetMotion
    (maxVelocity maxOmega wheelRadius trackWidth velocity omega : ℚ) : ℚ × ℚ :=
  TwoWheelDifferentialKinematic_Inverse wheelRadius trackWidth velocity omega

/-- Following the claim's words only (for comparison with the source):
clamp v and omega to the per-axis maxima at entry, then convert through the
inverse kinematics. -/
def SetMotion_claimedClamped
    (maxVelocity maxOmega wheelRadius trackWidth velocity omega : ℚ) : ℚ × ℚ :=
  let v := min maxVelocity (max (-maxVelocity) velocity)
  let w := min maxOmega (max (-maxOmega) omega)
  TwoWheelDifferentialKinematic_Inverse wheelRadius trackWidth v w

/- ------------------------------------------------------------------ -/
/- WFLY receiver normalization, from `Src/Devices/rc_receiver_wfly.c`. -/
/- ------------------------------------------------------------------ -/

/-- Decoded S-Bus channel data (`S_Bus_Channel_t` from s_bus.h): sixteen
11-bit channel values and the two relevant flag bits of byte 23. -/
structure S_Bus_Channel_t where
  channelValue : Nat → Nat
  flagBit_Failsafe : Nat
  flagBit_FrameLost : Nat

/-- Normalized receiver values (`ReceiverValues_t`, fields as used by
rc_receiver_wfly.c and chassis_motion.c). -/
structure ReceiverValues_t where
  steering : ℚ
  throttle : ℚ
  autoMode : Bool
  failSafe : Bool
  frameLost : Bool
deriving DecidableEq

/-- `MAX_RECEIVER_CHANNEL_SHIFT` from rc_receiver_wfly.c. -/
def MAX_RECEIVER_CHANNEL_SHIFT : ℤ := 671

/-- `MID_RECEIVER_CHANNEL_VALUE` from rc_receiver_wfly.c. -/
def MID_RECEIVER_CHANNEL_VALUE : ℤ := 1024

/-- The `(int16_t)` cast applied to a `uint16_t` channel value. -/
def toInt16 (x : Nat) : ℤ :=
  if x % 65536 < 32768 then (x % 65536 : ℤ) else (x % 65536 : ℤ) - 65536

/-- `Get_WFLY_Receiver_Values` from rc_receiver_wfly.c. -/
def Get_WFLY_Receiver_Values (receiverChannel : S_Bus_Channel_t) : ReceiverValues_t :=
  { steering := ((MID_RECEIVER_CHANNEL_VALUE - toInt16 (receiverChannel.channelValue 0) : ℤ) : ℚ)
      / ((MAX_RECEIVER_CHANNEL_SHIFT : ℤ) : ℚ)
    throttle := ((MID_RECEIVER_CHANNEL_VALUE + MAX_RECEIVER_CHANNEL_SHIFT
        - toInt16 (receiverChannel.channelValue 2) : ℤ) : ℚ)
      / ((2 * MAX_RECEIVER_CHANNEL_SHIFT : ℤ) : ℚ)
    autoMode := receiverChannel.channelValue 4 > 1024
    failSafe := receiverChannel.flagBit_Failsafe ≠ 0
    frameLost := receiverChannel.flagBit_FrameLost ≠ 0 }

/-- The concrete frame of the claim: channel 1 = 1024, channel 3 =
1024 + 671 = 1695, channel 5 = 0, flag bits 0. -/
def wflyTestFrame : S_Bus_Channel_t :=
  { channelValue := fun i => if i = 0 then 1024 else if i = 2 then 1695 else 0
    flagBit_Failsafe := 0
    flagBit_FrameLost := 0 }

/- ------------------------------------------------------------------ -/
/- Chassis-motion supervisor tick,                                     -/
/- from `ThreadChassisMotion` in `Src/MotionControl/chassis_motion.c`.  -/
/- ------------------------------------------------------------------ -/

/-- One periodic tick of `ThreadChassisMotion` (chassis_motion.c): given
the radio snapshot, the latched `isAutoMode` flag and the latest CmdVel
from the host, produce the new `isAutoMode` flag and the motion command
passed to `ChassisMotionX_SetMotion` on this tick (`none` when the tick
performs no `SetMotion` call). -/
def ThreadChassisMotionTick (maxVelocity maxOmega : ℚ) (isAutoMode : Bool)
    (receiverValue : ReceiverValues_t) (cmdVel : ℚ × ℚ) : Bool × Option (ℚ × ℚ) :=
  if !receiverValue.frameLost && !receiverValue.failSafe && !receiverValue.autoMode then
    (false, some (receiverValue.throttle * maxVelocity, receiverValue.steering * maxOmega))
  else if isAutoMode then
    (isAutoMode, some cmdVel)
  else
    (isAutoMode, none)

/-- A radio snapshot reporting frame-lost (all else neutral). -/
def frameLostSnapshot : ReceiverValues_t :=
  { steering := 0, throttle := 0, autoMode := false, failSafe := false, frameLost := true }

/- ------------------------------------------------------------------ -/
/- Theorems                                                            -/
/- ------------------------------------------------------------------ -/

/-- Auxiliary: one `PID_Calc` step always leaves the integral accumulator
inside the clamp interval. -/
theorem pid_calc_sumError_bounds (pid : PID_t) (m : ℚ) :
    -MAX_SUM_ERROR ≤ (PID_Calc pid m).2.sumError ∧
      (PID_Calc pid m).2.sumError ≤ MAX_SUM_ERROR := by
  unfold PID_Calc
  dsimp only
  constructor
  · split
    · norm_num [MAX_SUM_ERROR]
    · split
      · norm_num [MAX_SUM_ERROR]
      · linarith [ (by assumption : ¬ (pid.sumError + (pid.object - m) < -MAX_SUM_ERROR)) ]
  · split
    · norm_num [MAX_SUM_ERROR]
    · split
      · norm_num [MAX_SUM_ERROR]
      · linarith [ (by assumption : ¬ (pid.sumError + (pid.object - m) > MAX_SUM_ERROR)) ]

/-- Auxiliary: the clamp bound is preserved along any call sequence. -/
theorem pid_calcSeq_sumError_bounds (ms : List ℚ) :
    ∀ pid : PID_t, -MAX_SUM_ERROR ≤ pid.sumError → pid.sumError ≤ MAX_SUM_ERROR →
      -MAX_SUM_ERROR ≤ (PID_CalcSeq pid ms).sumError ∧
        (PID_CalcSeq pid ms).sumError ≤ MAX_SUM_ERROR := by
  induction ms with
  | nil => intro pid h1 h2; exact ⟨h1, h2⟩
  | cons m ms ih =>
      intro pid _ _
      have hb := pid_calc_sumError_bounds pid m
      exact ih (PID_Calc pid m).2 hb.1 hb.2

/-- C6: `PID_Calc` computes error = setpoint − measurement, adds it to
`sum_error` and clamps the sum into [−MAX_SUM_ERROR, MAX_SUM_ERROR]
(MAX_SUM_ERROR = 1000), and returns kP·error + kI·sum_error +
kD·(error − last_error); after any number of calls from `PID_Init` the
accumulator stays inside the clamp interval, and `PID_SetObject` changes
only the setpoint. -/
theorem pid_claim (pid : PID_t) (m obj kP kI kD : ℚ) (ms : List ℚ) :
    (MAX_SUM_ERROR = 1000) ∧
    ((PID_Calc pid m).2.lastError = pid.object - m) ∧
    (-MAX_SUM_ERROR ≤ (PID_Calc pid m).2.sumError ∧
       (PID_Calc pid m).2.sumError ≤ MAX_SUM_ERROR) ∧
    (-MAX_SUM_ERROR ≤ pid.sumError + (pid.object - m) →
       pid.sumError + (pid.object - m) ≤ MAX_SUM_ERROR →
       (PID_Calc pid m).2.sumError = pid.sumError + (pid.object - m)) ∧
    ((PID_Calc pid m).1 =
       pid.kP * (pid.object - m) + pid.kI * (PID_Calc pid m).2.sumError +
         pid.kD * ((pid.object - m) - pid.lastError)) ∧
    ((PID_SetObject pid obj).object = obj ∧
       (PID_SetObject pid obj).sumError = pid.sumError ∧
       (PID_SetObject pid obj).lastError = pid.lastError ∧
       (PID_SetObject pid obj).kP = pid.kP ∧
       (PID_SetObject pid obj).kI = pid.kI ∧
       (PID_SetObject pid obj).kD = pid.kD) ∧
    (-MAX_SUM_ERROR ≤ (PID_CalcSeq (PID_Init kP kI kD) ms).sumError ∧
       (PID_CalcSeq (PID_Init kP kI kD) ms).sumError ≤ MAX_SUM_ERROR) := by
  refine ⟨rfl, rfl, pid_calc_sumError_bounds pid m, ?_, ?_, ?_, ?_⟩
  · intro h1 h2
    unfold PID_Calc
    dsimp only
    rw [if_neg (by linarith), if_neg (by linarith)]
  · rfl
  · exact ⟨rfl, rfl, rfl, rfl, rfl, rfl⟩
  · exact pid_calcSeq_sumError_bounds ms (PID_Init kP kI kD)
      (by norm_num [PID_Init, MAX_SUM_ERROR]) (by norm_num [PID_Init, MAX_SUM_ERROR])

/-- Witness for `pid_claim` at concrete inputs. -/
theorem pid_claim_witness :
    (MAX_SUM_ERROR = 1000) ∧
    ((PID_Calc (PID_Init 1 1 1) 3).2.lastError = (PID_Init 1 1 1).object - 3) ∧
    (-MAX_SUM_ERROR ≤ (PID_Calc (PID_Init 1 1 1) 3).2.sumError ∧
       (PID_Calc (PID_Init 1 1 1) 3).2.sumError ≤ MAX_SUM_ERROR) ∧
    (-MAX_SUM_ERROR ≤ (PID_Init 1 1 1).sumError + ((PID_Init 1 1 1).object - 3) →
       (PID_Init 1 1 1).sumError + ((PID_Init 1 1 1).object - 3) ≤ MAX_SUM_ERROR →
       (PID_Calc (PID_Init 1 1 1) 3).2.sumError =
         (PID_Init 1 1 1).sumError + ((PID_Init 1 1 1).object - 3)) ∧
    ((PID_Calc (PID_Init 1 1 1) 3).1 =
       (PID_Init 1 1 1).kP * ((PID_Init 1 1 1).object - 3) +
         (PID_Init 1 1 1).kI * (PID_Calc (PID_Init 1 1 1) 3).2.sumError +
         (PID_Init 1 1 1).kD * (((PID_Init 1 1 1).object - 3) - (PID_Init 1 1 1).lastError)) ∧
    ((PID_SetObject (PID_Init 1 1 1) 7).object = 7 ∧
       (PID_SetObject (PID_Init 1 1 1) 7).sumError = (PID_Init 1 1 1).sumError ∧
       (PID_SetObject (PID_Init 1 1 1) 7).lastError = (PID_Init 1 1 1).lastError ∧
       (PID_SetObject (PID_Init 1 1 1) 7).kP = (PID_Init 1 1 1).kP ∧
       (PID_SetObject (PID_Init 1 1 1) 7).kI = (PID_Init 1 1 1).kI ∧
       (PID_SetObject (PID_Init 1 1 1) 7).kD = (PID_Init 1 1 1).kD) ∧
    (-MAX_SUM_ERROR ≤ (PID_CalcSeq (PID_Init 1 1 1) [1000, 1000]).sumError ∧
       (PID_CalcSeq (PID_Init 1 1 1) [1000, 1000]).sumError ≤ MAX_SUM_ERROR) :=
  pid_claim (PID_Init 1 1 1) 3 7 1 1 1 [1000, 1000]

/-- C8: composing the inverse kinematics with the forward kinematics
returns the original (v, omega), within 1e−6 per component, for positive
wheel radius and track width (and inputs within the velocity limits). -/
theorem kinematics_round_trip (wheelRadius trackWidth vmax omegamax v omega : ℚ)
    (hr : 0 < wheelRadius) (hT : 0 < trackWidth)
    (hv : |v| ≤ vmax) (homega : |omega| ≤ omegamax) :
    |(TwoWheelDifferentialKinematic_Forward wheelRadius trackWidth
        (TwoWheelDifferentialKinematic_Inverse wheelRadius trackWidth v omega).1
        (TwoWheelDifferentialKinematic_Inverse wheelRadius trackWidth v omega).2).1 - v|
      ≤ 1 / 1000000 ∧
    |(TwoWheelDifferentialKinematic_Forward wheelRadius trackWidth
        (TwoWheelDifferentialKinematic_Inverse wheelRadius trackWidth v omega).1
        (TwoWheelDifferentialKinematic_Inverse wheelRadius trackWidth v omega).2).2 - omega|
      ≤ 1 / 1000000 := by
  have hr0 : wheelRadius ≠ 0 := ne_of_gt hr
  have hT0 : trackWidth ≠ 0 := ne_of_gt hT
  unfold TwoWheelDifferentialKinematic_Forward TwoWheelDifferentialKinematic_Inverse
  dsimp only
  constructor
  · have h1 : (v - trackWidth / 2 * omega) / wheelRadius * wheelRadius +
        (v + trackWidth / 2 * omega) / wheelRadius * wheelRadius = 2 * v := by
      field_simp
      ring
    rw [h1]
    norm_num
  · have h2 : ((v + trackWidth / 2 * omega) / wheelRadius * wheelRadius -
        (v - trackWidth / 2 * omega) / wheelRadius * wheelRadius) = trackWidth * omega := by
      field_simp
      ring
    rw [h2, mul_comm, mul_div_assoc, div_self hT0, mul_one]
    norm_num

/-- Witness for `kinematics_round_trip` at r = 1/2, T = 2, (v, omega) = (1, 1). -/
theorem kinematics_round_trip_witness :
    |(TwoWheelDifferentialKinematic_Forward (1/2) 2
        (TwoWheelDifferentialKinematic_Inverse (1/2) 2 1 1).1
        (TwoWheelDifferentialKinematic_Inverse (1/2) 2 1 1).2).1 - 1| ≤ 1 / 1000000 ∧
    |(TwoWheelDifferentialKinematic_Forward (1/2) 2
        (TwoWheelDifferentialKinematic_Inverse (1/2) 2 1 1).1
        (TwoWheelDifferentialKinematic_Inverse (1/2) 2 1 1).2).2 - 1| ≤ 1 / 1000000 :=
  kinematics_round_trip (1/2) 2 1 1 1 1 (by norm_num) (by norm_num)
    (by norm_num) (by norm_num)

/-- C4 counterexample: with maxima 1, wheel radius 1 and track width 2,
`ChassisTwoWheelDifferential_SetMotion` at (v, omega) = (2, 0) produces the
unclamped wheel setpoints (2, 2), not the clamp-then-invert result (1, 1):
the function does not clamp its inputs. -/
theorem setMotion_no_clamp_counterexample :
    ChassisTwoWheelDifferential_SetMotion 1 1 1 2 2 0 = (2, 2) ∧
      SetMotion_claimedClamped 1 1 1 2 2 0 = (1, 1) ∧
      ChassisTwoWheelDifferential_SetMotion 1 1 1 2 2 0 ≠
        SetMotion_claimedClamped 1 1 1 2 2 0 := by
  have h1 : ChassisTwoWheelDifferential_SetMotion 1 1 1 2 2 0 = (2, 2) := by
    unfold ChassisTwoWheelDifferential_SetMotion TwoWheelDifferentialKinematic_Inverse
    norm_num
  have h2 : SetMotion_claimedClamped 1 1 1 2 2 0 = (1, 1) := by
    unfold SetMotion_claimedClamped TwoWheelDifferentialKinematic_Inverse
    norm_num
  refine ⟨h1, h2, ?_⟩
  rw [h1, h2]
  intro h
  exact absurd (congrArg Prod.fst h) (by norm_num)

/-- C4 (amended): `ChassisTwoWheelDifferential_SetMotion` performs no
clamping at entry: for every input it passes (v, omega) directly to the
inverse kinematics, independently of the maxima loaded at `Init`. -/
theorem setMotion_unclamped (maxVelocity maxOmega wheelRadius trackWidth velocity omega : ℚ) :
    ChassisTwoWheelDifferential_SetMotion maxVelocity maxOmega wheelRadius trackWidth
        velocity omega =
      TwoWheelDifferentialKinematic_Inverse wheelRadius trackWidth velocity omega := rfl

/-- Frame with channel 3 at mid − span = 1024 − 671 = 353 (full WFLY
throttle), other channels neutral. -/
def wflyLowCh3Frame : S_Bus_Channel_t :=
  { channelValue := fun i => if i = 0 then 1024 else if i = 2 then 353 else 0
    flagBit_Failsafe := 0
    flagBit_FrameLost := 0 }

/-- Auxiliary: for an 11-bit channel value the `(int16_t)` cast is the
identity. -/
theorem toInt16_of_le (x : Nat) (h : x ≤ 2047) : toInt16 x = (x : ℤ) := by
  unfold toInt16
  rw [if_pos (by omega)]
  omega

/-- C5 counterexample: on the claim's frame (ch1 = 1024, ch3 = 1695,
ch5 = 0, flags 0) the WFLY normalization yields throttle = 0, not the
claimed 1.0: the throttle formula is (1695 − ch3)/1342, so ch3 = 1695 is
the zero-throttle end of the stick travel. -/
theorem wfly_throttle_counterexample :
    (Get_WFLY_Receiver_Values wflyTestFrame).throttle = 0 ∧
      (Get_WFLY_Receiver_Values wflyTestFrame).throttle ≠ 1 := by
  have h : (Get_WFLY_Receiver_Values wflyTestFrame).throttle = 0 := by
    unfold Get_WFLY_Receiver_Values wflyTestFrame
    norm_num [toInt16, MID_RECEIVER_CHANNEL_VALUE, MAX_RECEIVER_CHANNEL_SHIFT]
  exact ⟨h, by rw [h]; norm_num⟩

/-- C5 (amended): for the claim's frame (ch1 = 1024, ch3 = 1024 + 671,
ch5 = 0, flag bits 0) the WFLY normalization produces steering = 0,
throttle = 0 and autoMode = false (throttle 1.0 is instead produced at
ch3 = 1024 − 671 = 353); and for a decoded frame the throttle lies in
[0, 1] exactly when channel 3 lies in [353, 1695]. -/
theorem wfly_claim (ch : S_Bus_Channel_t) (h3 : ch.channelValue 2 ≤ 2047) :
    ((Get_WFLY_Receiver_Values wflyTestFrame).steering = 0 ∧
      (Get_WFLY_Receiver_Values wflyTestFrame).throttle = 0 ∧
      (Get_WFLY_Receiver_Values wflyTestFrame).autoMode = false ∧
      (Get_WFLY_Receiver_Values wflyTestFrame).failSafe = false ∧
      (Get_WFLY_Receiver_Values wflyTestFrame).frameLost = false) ∧
    (Get_WFLY_Receiver_Values wflyLowCh3Frame).throttle = 1 ∧
    (0 ≤ (Get_WFLY_Receiver_Values ch).throttle ∧
        (Get_WFLY_Receiver_Values ch).throttle ≤ 1 ↔
      353 ≤ ch.channelValue 2 ∧ ch.channelValue 2 ≤ 1695) := by
  refine ⟨⟨?_, ?_, ?_, ?_, ?_⟩, ?_, ?_⟩
  · unfold Get_WFLY_Receiver_Values wflyTestFrame
    norm_num [toInt16, MID_RECEIVER_CHANNEL_VALUE, MAX_RECEIVER_CHANNEL_SHIFT]
  · unfold Get_WFLY_Receiver_Values wflyTestFrame
    norm_num [toInt16, MID_RECEIVER_CHANNEL_VALUE, MAX_RECEIVER_CHANNEL_SHIFT]
  · unfold Get_WFLY_Receiver_Values wflyTestFrame
    norm_num
  · unfold Get_WFLY_Receiver_Values wflyTestFrame
    norm_num
  · unfold Get_WFLY_Receiver_Values wflyTestFrame
    norm_num
  · unfold Get_WFLY_Receiver_Values wflyLowCh3Frame
    norm_num [toInt16, MID_RECEIVER_CHANNEL_VALUE, MAX_RECEIVER_CHANNEL_SHIFT]
  · unfold Get_WFLY_Receiver_Values
    rw [toInt16_of_le _ h3]
    dsimp only
    rw [MID_RECEIVER_CHANNEL_VALUE, MAX_RECEIVER_CHANNEL_SHIFT]
    constructor
    · rintro ⟨hlo, hhi⟩
      constructor
      · rw [div_le_one (by norm_num)] at hhi
        have : (353 : ℚ) ≤ (ch.channelValue 2 : ℤ) := by push_cast at hhi ⊢; linarith
        exact_mod_cast this
      · have h0 : (0 : ℚ) ≤ ((1024 + 671 - (ch.channelValue 2 : ℤ) : ℤ) : ℚ) := by
          by_contra hneg
          push_neg at hneg
          have : ((1024 + 671 - (ch.channelValue 2 : ℤ) : ℤ) : ℚ) / ((2 * 671 : ℤ) : ℚ) < 0 := by
            apply div_neg_of_neg_of_pos hneg
            norm_num
          linarith
        have : ((ch.channelValue 2 : ℤ) : ℚ) ≤ 1695 := by push_cast at h0 ⊢; linarith
        exact_mod_cast this
    · rintro ⟨hlo, hhi⟩
      have hlo' : (353 : ℚ) ≤ ((ch.channelValue 2 : Nat) : ℚ) := by exact_mod_cast hlo
      have hhi' : ((ch.channelValue 2 : Nat) : ℚ) ≤ 1695 := by exact_mod_cast hhi
      constructor
      · apply div_nonneg _ (by norm_num)
        push_cast
        linarith
      · rw [div_le_one (by norm_num)]
        push_cast
        linarith

/-- Witness for `wfly_claim` at the claim's frame itself. -/
theorem wfly_claim_witness :
    ((Get_WFLY_Receiver_Values wflyTestFrame).steering = 0 ∧
      (Get_WFLY_Receiver_Values wflyTestFrame).throttle = 0 ∧
      (Get_WFLY_Receiver_Values wflyTestFrame).autoMode = false ∧
      (Get_WFLY_Receiver_Values wflyTestFrame).failSafe = false ∧
      (Get_WFLY_Receiver_Values wflyTestFrame).frameLost = false) ∧
    (Get_WFLY_Receiver_Values wflyLowCh3Frame).throttle = 1 ∧
    (0 ≤ (Get_WFLY_Receiver_Values wflyTestFrame).throttle ∧
        (Get_WFLY_Receiver_Values wflyTestFrame).throttle ≤ 1 ↔
      353 ≤ wflyTestFrame.channelValue 2 ∧ wflyTestFrame.channelValue 2 ≤ 1695) :=
  wfly_claim wflyTestFrame (by norm_num [wflyTestFrame])

/-- C1 counterexample: on a tick whose radio snapshot reports
frameLost = true while auto mode is not latched, `ThreadChassisMotion`
performs no `SetMotion` call at all — in particular it does not apply
(0, 0) to the chassis. -/
theorem supervisor_failsafe_counterexample :
    ThreadChassisMotionTick 1 1 false frameLostSnapshot (0, 0) = (false, none) ∧
      (ThreadChassisMotionTick 1 1 false frameLostSnapshot (0, 0)).2 ≠
        some ((0 : ℚ), (0 : ℚ)) := by
  constructor
  · rfl
  · intro h
    simp [ThreadChassisMotionTick, frameLostSnapshot] at h

/-- C1 (amended): when the radio snapshot reports frameLost = false,
failSafe = false and autoMode = false, the tick applies exactly
(throttle·maxVelocity, steering·maxOmega) to the chassis (and clears the
latched auto mode); when the radio reports frameLost or failSafe, the tick
applies the latest CmdVel if auto mode is latched and otherwise applies no
motion command at all on that tick — it never forces (0, 0). -/
theorem supervisor_tick_claim (maxVelocity maxOmega : ℚ) (isAutoMode : Bool)
    (rv : ReceiverValues_t) (cmdVel : ℚ × ℚ) :
    (rv.frameLost = false → rv.failSafe = false → rv.autoMode = false →
      ThreadChassisMotionTick maxVelocity maxOmega isAutoMode rv cmdVel =
        (false, some (rv.throttle * maxVelocity, rv.steering * maxOmega))) ∧
    (rv.frameLost = true ∨ rv.failSafe = true →
      ThreadChassisMotionTick maxVelocity maxOmega isAutoMode rv cmdVel =
        (isAutoMode, if isAutoMode then some cmdVel else none)) := by
  constructor
  · intro h1 h2 h3
    unfold ThreadChassisMotionTick
    rw [h1, h2, h3]
    simp
  · intro h
    unfold ThreadChassisMotionTick
    have hcond : (!rv.frameLost && !rv.failSafe && !rv.autoMode) = false := by
      rcases h with h | h <;> rw [h] <;> simp
    rw [hcond]
    simp
    split <;> simp

/-- Witness for `supervisor_tick_claim` on the frame-lost snapshot with
auto mode latched. -/
theorem supervisor_tick_claim_witness :
    (frameLostSnapshot.frameLost = false → frameLostSnapshot.failSafe = false →
      frameLostSnapshot.autoMode = false →
      ThreadChassisMotionTick 1 2 true frameLostSnapshot (3, 4) =
        (false, some (frameLostSnapshot.throttle * 1, frameLostSnapshot.steering * 2))) ∧
    (frameLostSnapshot.frameLost = true ∨ frameLostSnapshot.failSafe = true →
      ThreadChassisMotionTick 1 2 true frameLostSnapshot (3, 4) =
        (true, if (true : Bool) then some ((3 : ℚ), (4 : ℚ)) else none)) :=
  supervisor_tick_claim 1 2 true frameLostSnapshot (3, 4)

/- ------------------------------------------------------------------ -/
/- UDP helper and ROS reply path,                                      -/
/- from `Src/MiddleWare/udp.c` and `Src/ROS_Interface/ros_interface.c`. -/
/- ------------------------------------------------------------------ -/

/-- One slot of the `callbackEntries` table in udp.c.  The cached peer
address (`receivedAddr`) is represented by its port, the only field the
send guards inspect; `hasCallback` models `callback != NULL`. -/
structure UDP_CallbackEntry_t where
  socket : ℤ
  receivedPort : Nat
  port : Nat
  hasCallback : Bool
deriving DecidableEq

/-- A datagram handed to `netUDP_Send`: sending socket, destination port
and payload. -/
structure UdpSendEvent where
  socket : ℤ
  destPort : Nat
  payload : List Nat
deriving DecidableEq

/-- The zero-initialized `callbackEntries[8]` array of udp.c. -/
def udpInitialEntries : List UDP_CallbackEntry_t :=
  List.replicate 8 { socket := 0, receivedPort := 0, port := 0, hasCallback := false }

/-- `UdpCallback` from udp.c: on an inbound datagram, every entry
registered for the socket caches the sender's address. -/
def UdpCallback (entries : List UDP_CallbackEntry_t) (socket : ℤ) (srcPort : Nat)
    (len : Nat) : List UDP_CallbackEntry_t :=
  if socket ≤ 0 ∨ len = 0 then entries
  else entries.map fun e =>
    if e.socket = socket ∧ e.hasCallback then { e with receivedPort := srcPort } else e

/-- `UDP_SendData` from udp.c: reply to the cached peer of `socket`.
Returns the C result together with the datagram given to `netUDP_Send`
(`none` when nothing is transmitted).  `bufferOk` models the
`netUDP_GetBuffer` outcome and `sendOk` the `netUDP_Send` status. -/
def UDP_SendData (bufferOk sendOk : Bool) (entries : List UDP_CallbackEntry_t)
    (socket : ℤ) (buff : List Nat) : Bool × Option UdpSendEvent :=
  if socket ≤ 0 then (false, none)
  else
    match entries.find? (fun e => e.socket = socket) with
    | none => (false, none)
    | some e =>
      if e.receivedPort = 0 then (false, none)
      else if bufferOk = false then (false, none)
      else (sendOk, some { socket := socket, destPort := e.receivedPort, payload := buff })

/-- `UDP_GetReceivedAddress` from udp.c: the cached peer port for a
socket, `none` when the guards fail (socket invalid, no entry, or cached
port still 0). -/
def UDP_GetReceivedAddress (entries : List UDP_CallbackEntry_t) (socket : ℤ) :
    Option Nat :=
  if socket ≤ 0 then none
  else
    match entries.find? (fun e => e.socket = socket) with
    | none => none
    | some e => if e.receivedPort = 0 then none else some e.receivedPort

/-- `UDP_SendDataTo` from udp.c: send to an explicit destination. -/
def UDP_SendDataTo (bufferOk sendOk : Bool) (socket : ℤ) (destPort : Nat)
    (buff : List Nat) : Bool × Option UdpSendEvent :=
  if socket ≤ 0 then (false, none)
  else if bufferOk = false then (false, none)
  else (sendOk, some { socket := socket, destPort := destPort, payload := buff })

/-- `ROS_Interface_SendBackMessage` from ros_interface.c: look up the
cached peer of the ROS socket, overwrite the port with the configured
remote port, and transmit.  `remotePort` stands for
`DEFAULT_REMOTE_UDP_PORT` (defined outside src/). -/
def ROS_Interface_SendBackMessage (bufferOk sendOk : Bool) (remotePort : Nat)
    (entries : List UDP_CallbackEntry_t) (rosSocket : ℤ) (data : List Nat) :
    Option UdpSendEvent :=
  if data ≠ [] ∧ 0 ≤ rosSocket then
    match UDP_GetReceivedAddress entries rosSocket with
    | none => none
    | some _ => (UDP_SendDataTo bufferOk sendOk rosSocket remotePort data).2
  else none

/-- `UDP_RegisterListener`'s table fill from udp.c: the first completely
free slot receives the socket and port; the cached peer address is left
as it was (all-zero at start-up). -/
def udpRegister (entries : List UDP_CallbackEntry_t) (socket : ℤ) (port : Nat) :
    List UDP_CallbackEntry_t :=
  match entries with
  | [] => []
  | e :: rest =>
    if e.hasCallback = false ∧ e.socket = 0 ∧ e.port = 0 then
      { e with socket := socket, port := port, hasCallback := true } :: rest
    else e :: udpRegister rest socket port

/-- Events driving the UDP subsystem state. -/
inductive UdpEvent where
  | register (socket : ℤ) (port : Nat)
  | inbound (socket : ℤ) (srcPort : Nat) (len : Nat)
  | sendBack (bufferOk sendOk : Bool) (remotePort : Nat) (rosSocket : ℤ) (data : List Nat)

/-- Whether an event is an inbound datagram. -/
def UdpEvent.isInbound : UdpEvent → Bool
  | .inbound _ _ _ => true
  | _ => false

/-- Run a list of events from a given table state, collecting every
datagram transmitted by `ROS_Interface_SendBackMessage`. -/
def udpRun (entries : List UDP_CallbackEntry_t) :
    List UdpEvent → List UDP_CallbackEntry_t × List UdpSendEvent
  | [] => (entries, [])
  | .register s p :: evs => udpRun (udpRegister entries s p) evs
  | .inbound s sp len :: evs => udpRun (UdpCallback entries s sp len) evs
  | .sendBack b ok rp s d :: evs =>
    let sent := ROS_Interface_SendBackMessage b ok rp entries s d
    let rest := udpRun entries evs
    (rest.1, sent.toList ++ rest.2)

/-- Auxiliary: registration does not touch the cached peer port. -/
theorem udpRegister_receivedPort (entries : List UDP_CallbackEntry_t) (s : ℤ) (p : Nat) :
    ∀ e ∈ udpRegister entries s p, ∃ e0 ∈ entries, e.receivedPort = e0.receivedPort := by
  induction entries with
  | nil => intro e he; simp [udpRegister] at he
  | cons e0 rest ih =>
      intro e he
      unfold udpRegister at he
      by_cases hc : e0.hasCallback = false ∧ e0.socket = 0 ∧ e0.port = 0
      · rw [if_pos hc] at he
        rcases List.mem_cons.mp he with h | h
        · exact ⟨e0, List.mem_cons_self _ _, by rw [h]⟩
        · exact ⟨e, List.mem_cons_of_mem _ h, rfl⟩
      · rw [if_neg hc] at he
        rcases List.mem_cons.mp he with h | h
        · exact ⟨e0, List.mem_cons_self _ _, by rw [h]⟩
        · obtain ⟨e1, he1, hp⟩ := ih e h
          exact ⟨e1, List.mem_cons_of_mem _ he1, hp⟩

/-- Auxiliary: when every cached peer port is 0, `SendBackMessage`
transmits nothing. -/
theorem sendBack_none_of_ports_zero (bufferOk sendOk : Bool) (remotePort : Nat)
    (entries : List UDP_CallbackEntry_t) (rosSocket : ℤ) (data : List Nat)
    (h : ∀ e ∈ entries, e.receivedPort = 0) :
    ROS_Interface_SendBackMessage bufferOk sendOk remotePort entries rosSocket data =
      none := by
  have hga : UDP_GetReceivedAddress entries rosSocket = none := by
    unfold UDP_GetReceivedAddress
    split
    · rfl
    · cases hfind : entries.find? (fun e => e.socket = rosSocket) with
      | none => rfl
      | some e =>
          dsimp only
          rw [if_pos (h e (List.mem_of_find?_eq_some hfind))]
  unfold ROS_Interface_SendBackMessage
  rw [hga]
  split <;> rfl

/-- Auxiliary: a run containing no inbound event keeps every cached peer
port at 0 and transmits nothing. -/
theorem udpRun_no_inbound (evs : List UdpEvent) :
    ∀ entries : List UDP_CallbackEntry_t,
      (∀ ev ∈ evs, ev.isInbound = false) →
      (∀ e ∈ entries, e.receivedPort = 0) →
      (∀ e ∈ (udpRun entries evs).1, e.receivedPort = 0) ∧
        (udpRun entries evs).2 = [] := by
  induction evs with
  | nil => intro entries _ hz; exact ⟨hz, rfl⟩
  | cons ev evs ih =>
      intro entries hni hz
      match ev with
      | .register s p =>
          have hz' : ∀ e ∈ udpRegister entries s p, e.receivedPort = 0 := by
            intro e he
            obtain ⟨e0, he0, hp⟩ := udpRegister_receivedPort entries s p e he
            rw [hp]; exact hz e0 he0
          exact ih (udpRegister entries s p)
            (fun e he => hni e (List.mem_cons_of_mem _ he)) hz'
      | .inbound s sp len =>
          exact absurd (hni _ (List.mem_cons_self _ _)) (by simp [UdpEvent.isInbound])
      | .sendBack b ok rp s d =>
          have hs := sendBack_none_of_ports_zero b ok rp entries s d hz
          have hrest := ih entries (fun e he => hni e (List.mem_cons_of_mem _ he)) hz
          unfold udpRun
          dsimp only
          rw [hs]
          exact ⟨hrest.1, by simp [hrest.2]⟩

/-- C10: while a registered socket's cached peer address still has port 0
(no datagram received yet), `UDP_SendData` returns false and hands nothing
to `netUDP_Send`; and along any event sequence without an inbound
datagram — starting from the zero-initialized table —
`ROS_Interface_SendBackMessage` transmits no reply at all. -/
theorem udp_no_reply_before_inbound (bufferOk sendOk : Bool)
    (entries : List UDP_CallbackEntry_t) (socket : ℤ) (buff : List Nat)
    (e : UDP_CallbackEntry_t) (evs : List UdpEvent)
    (hfind : entries.find? (fun x => x.socket = socket) = some e)
    (hport : e.receivedPort = 0)
    (hni : ∀ ev ∈ evs, ev.isInbound = false) :
    UDP_SendData bufferOk sendOk entries socket buff = (false, none) ∧
      (udpRun udpInitialEntries evs).2 = [] := by
  constructor
  · unfold UDP_SendData
    split
    · rfl
    · rw [hfind]
      dsimp only
      rw [if_pos hport]
  · exact (udpRun_no_inbound evs udpInitialEntries hni
      (by intro x hx; simp [udpInitialEntries] at hx; rw [hx])).2

/-- Witness for `udp_no_reply_before_inbound`: a single-entry table for
socket 1 with no datagram received, and a register-then-reply event
sequence. -/
theorem udp_no_reply_before_inbound_witness :
    UDP_SendData true true
        [{ socket := 1, receivedPort := 0, port := 12000, hasCallback := true }] 1 [5] =
      (false, none) ∧
      (udpRun udpInitialEntries
        [.register 1 12000, .sendBack true true 12001 1 [5]]).2 = [] :=
  udp_no_reply_before_inbound true true
    [{ socket := 1, receivedPort := 0, port := 12000, hasCallback := true }] 1 [5]
    { socket := 1, receivedPort := 0, port := 12000, hasCallback := true }
    [.register 1 12000, .sendBack true true 12001 1 [5]]
    (by simp [List.find?]) rfl
    (by intro ev hev
        rcases List.mem_cons.mp hev with h | h
        · rw [h]; rfl
        · rcases List.mem_cons.mp h with h2 | h2
          · rw [h2]; rfl
          · simp at h2)

/- ------------------------------------------------------------------ -/
/- Persistent store file, from `Src/DataStore/store_file.c`.           -/
/- The W25QXX driver (an external collaborator, `Src/Devices/w25qxx.c`) -/
/- is abstracted as a byte-addressable memory: its `Write` performs the -/
/- sector erasures needed so that the programmed bytes are the bytes    -/
/- read back.                                                          -/
/- ------------------------------------------------------------------ -/

/-- Byte-addressable flash memory.  `memWrite` truncates every stored
value to a byte. -/
abbrev Mem := Nat → Nat

/-- Freshly erased NOR flash: every byte reads 0xFF. -/
def erasedMem : Mem := fun _ => 255

/-- Store a list of bytes at consecutive addresses. -/
def memWrite : Mem → Nat → List Nat → Mem
  | m, _, [] => m
  | m, addr, b :: bs => memWrite (fun a => if a = addr then b % 256 else m a) (addr + 1) bs

/-- Read `n` consecutive bytes starting at `addr`. -/
def memRead (m : Mem) (addr n : Nat) : List Nat :=
  (List.range n).map fun i => m (addr + i)

/-- Modelled from the spec: `Crc32` (declared in `Src/Algorithm/crc32.h`;
the implementation file is not under src/).  Standard CRC-32, polynomial
0x04C11DB7 processed in reflected form (0xEDB88320), the previous CRC is
passed in so that arbitrary-length buffers can be streamed.  One bit step
of the reflected algorithm: -/
def crc32Bit (c : Nat) : Nat :=
  if c % 2 = 1 then (c / 2) ^^^ 0xEDB88320 else c / 2

/-- Modelled from the spec: one byte step of the reflected CRC-32. -/
def crc32Byte (c b : Nat) : Nat := crc32Bit^[8] (c ^^^ (b % 256))

/-- Modelled from the spec: `Crc32(crc, input, len)` — fold the byte steps
over the buffer starting from the previous CRC value. -/
def Crc32 (crc : Nat) (input : List Nat) : Nat := input.foldl crc32Byte crc

/-- `CRC32_INITIAL_VALUE` from crc32.h. -/
def CRC32_INITIAL_VALUE : Nat := 0xFFFFFFFF

/-- `FILE_DESCRIPTION_BLOCK_HEADER` from store_file.c. -/
def FILE_DESCRIPTION_BLOCK_HEADER : Nat := 0xA5A55A5A

/-- `FILE_DESCRIPTION_AREA_SIZE` from store_file.c: one 4 KiB sector. -/
def FILE_DESCRIPTION_AREA_SIZE : Nat := 4096

/-- `sizeof(FileDescriptionBlock_t)`: five packed uint32 fields. -/
def fdbSize : Nat := 20

/-- `FileDescriptionBlock_t` from store_file.c. -/
structure FileDescriptionBlock_t where
  fdbHeader : Nat
  filePos : Nat
  length : Nat
  fileCRC : Nat
  fdbCRC : Nat
deriving DecidableEq

/-- A uint32 as four little-endian bytes. -/
def u32ToBytes (v : Nat) : List Nat :=
  [v % 256, v / 256 % 256, v / 65536 % 256, v / 16777216 % 256]

/-- Read a little-endian uint32 from memory. -/
def memReadU32 (m : Mem) (addr : Nat) : Nat :=
  m addr % 256 + 256 * (m (addr + 1) % 256) + 65536 * (m (addr + 2) % 256)
    + 16777216 * (m (addr + 3) % 256)

/-- The first 16 bytes of the packed FDB: every field except the trailing
`fdbCRC` (the range the fdbCRC is computed over). -/
def fdbPrefixBytes (f : FileDescriptionBlock_t) : List Nat :=
  u32ToBytes f.fdbHeader ++ u32ToBytes f.filePos ++ u32ToBytes f.length
    ++ u32ToBytes f.fileCRC

/-- All 20 bytes of the packed FDB. -/
def fdbToBytes (f : FileDescriptionBlock_t) : List Nat :=
  fdbPrefixBytes f ++ u32ToBytes f.fdbCRC

/-- Read a packed FDB from memory. -/
def readFdb (m : Mem) (addr : Nat) : FileDescriptionBlock_t :=
  { fdbHeader := memReadU32 m addr
    filePos := memReadU32 m (addr + 4)
    length := memReadU32 m (addr + 8)
    fileCRC := memReadU32 m (addr + 12)
    fdbCRC := memReadU32 m (addr + 16) }

/-- The scalar fields of `StoreFile_t` from store_file.h. -/
structure StoreFile_t where
  blockPosition : Nat
  blockLength : Nat
  fdbPos : Nat
  filePos : Nat
  length : Nat
  crc : Nat
  readPos : Nat
  writePos : Nat
deriving DecidableEq

/-- A store file together with the flash it lives on. -/
structure SFState where
  file : StoreFile_t
  mem : Mem

/-- The size of the circular data area: `blockLength −
FILE_DESCRIPTION_AREA_SIZE`. -/
def dataAreaSize (fp : StoreFile_t) : Nat :=
  fp.blockLength - FILE_DESCRIPTION_AREA_SIZE

/-- `Write` from store_file.c: append at `writePos`, splitting the bytes
at the data-area boundary; afterwards `length` is set to the new
`writePos`. -/
def StoreFile.Write (s : SFState) (data : List Nat) : Bool × SFState :=
  if data.length = 0 then (false, s)
  else
    let fp := s.file
    if fp.writePos + data.length > fp.blockLength - FILE_DESCRIPTION_AREA_SIZE then
      let writeSize := fp.blockLength - FILE_DESCRIPTION_AREA_SIZE - fp.writePos
      let m1 := memWrite s.mem
        (fp.blockPosition + FILE_DESCRIPTION_AREA_SIZE + fp.writePos) (data.take writeSize)
      let m2 := memWrite m1 (fp.blockPosition + FILE_DESCRIPTION_AREA_SIZE)
        (data.drop writeSize)
      let wp := data.length - writeSize
      (true, ⟨{ fp with writePos := wp, length := wp }, m2⟩)
    else
      (true,
       ⟨{ fp with writePos := fp.writePos + data.length, length := fp.writePos + data.length },
        memWrite s.mem (fp.blockPosition + FILE_DESCRIPTION_AREA_SIZE + fp.writePos) data⟩)

/-- `Read` from store_file.c: read up to `length − readPos` bytes from
`readPos`, wrapping at the data-area boundary; returns the C return value
together with the bytes delivered to the caller's buffer. -/
def StoreFile.Read (s : SFState) (size : Nat) : Int × List Nat × SFState :=
  if size = 0 then (-1, [], s)
  else
    let fp := s.file
    if fp.readPos ≥ fp.length then (0, [], s)
    else
      let size1 := if fp.readPos + size > fp.length then fp.length - fp.readPos else size
      if fp.readPos + size1 > fp.blockLength - FILE_DESCRIPTION_AREA_SIZE then
        let readSize := fp.blockLength - FILE_DESCRIPTION_AREA_SIZE - fp.readPos
        let part1 := memRead s.mem
          (fp.blockPosition + FILE_DESCRIPTION_AREA_SIZE + fp.readPos) readSize
        let part2 := memRead s.mem
          (fp.blockPosition + FILE_DESCRIPTION_AREA_SIZE) (size1 - readSize)
        ((size1 : Int), part1 ++ part2, ⟨{ fp with readPos := size1 - readSize }, s.mem⟩)
      else
        ((size1 : Int),
         memRead s.mem (fp.blockPosition + FILE_DESCRIPTION_AREA_SIZE + fp.readPos) size1,
         ⟨{ fp with readPos := fp.readPos + size1 }, s.mem⟩)

/-- `SetWritePos` from store_file.c. -/
def StoreFile.SetWritePos (s : SFState) (pos : Nat) : SFState :=
  ⟨{ s.file with writePos := pos }, s.mem⟩

/-- `SetReadPos` from store_file.c: ignored when `pos` exceeds the file
length. -/
def StoreFile.SetReadPos (s : SFState) (pos : Nat) : SFState :=
  if pos > s.file.length then s else ⟨{ s.file with readPos := pos }, s.mem⟩

/-- `MEM_BLOCK_SIZE`, the scratch-buffer size used by `CalculateCRC`. -/
def MEM_BLOCK_SIZE : Nat := 2048

/-- The streaming loop of `CalculateCRC` (store_file.c): read the file in
chunks through `Read` and fold them through `Crc32`.  The loop runs at
most once per remaining byte, so `fuel = remaining` is enough to reach the
loop's own exit conditions. -/
def calcCrcLoop : Nat → Nat → Nat → SFState → Nat × SFState
  | 0, _, crc, s => (crc, s)
  | fuel + 1, remaining, crc, s =>
    if remaining = 0 then (crc, s)
    else
      let chunk := if remaining < MEM_BLOCK_SIZE then remaining else MEM_BLOCK_SIZE
      let r := StoreFile.Read s chunk
      if r.1 ≤ 0 then (0, r.2.2)
      else calcCrcLoop fuel (remaining - r.1.toNat) (Crc32 crc r.2.1) r.2.2

/-- `CalculateCRC` from store_file.c: stream the logical content from
position 0 through `Crc32`, then restore `readPos`.  `allocOk` models the
`MemPool_Alloc` outcome (on failure the function returns 0 untouched). -/
def StoreFile.CalculateCRC (allocOk : Bool) (s : SFState) : Nat × SFState :=
  if allocOk = false then (0, s)
  else
    let fp := s.file
    let originalReadPos := fp.readPos
    let r := calcCrcLoop fp.length fp.length CRC32_INITIAL_VALUE ⟨{ fp with readPos := 0 }, s.mem⟩
    (r.1, ⟨{ r.2.file with readPos := originalReadPos }, r.2.mem⟩)

/-- `ReadCRC` from store_file.c. -/
def StoreFile.ReadCRC (s : SFState) : Nat := s.file.crc

/-- `UpdateFileDescription` from store_file.c: recompute the file CRC,
fill an FDB for the current state, protect it with a CRC over its first
16 bytes and program it at `fdbPos` in the FDA. -/
def StoreFile.UpdateFileDescription (allocOk : Bool) (s : SFState) : Bool × SFState :=
  let fp := s.file
  let r := StoreFile.CalculateCRC allocOk s
  let fdb0 : FileDescriptionBlock_t :=
    { fdbHeader := FILE_DESCRIPTION_BLOCK_HEADER, filePos := fp.filePos, length := fp.length
      fileCRC := r.1, fdbCRC := 0 }
  let fdbCRC := Crc32 CRC32_INITIAL_VALUE (fdbPrefixBytes fdb0)
  let mem2 := memWrite r.2.mem (fp.blockPosition + fp.fdbPos)
    (fdbToBytes { fdb0 with fdbCRC := fdbCRC })
  (true, ⟨{ r.2.file with crc := r.1 }, mem2⟩)

/-- `NewFile` from store_file.c: advance the FDB slot and the data-area
file position (both with wrap) and reset the per-file fields. -/
def StoreFile.NewFile (s : SFState) : Bool × SFState :=
  let fp := s.file
  let fdbPos1 := fp.fdbPos + fdbSize
  let fdbPos2 := if fdbPos1 + fdbSize ≥ FILE_DESCRIPTION_AREA_SIZE then 0 else fdbPos1
  let filePos1 := fp.filePos + fp.length
  let filePos2 :=
    if filePos1 > fp.blockLength - FILE_DESCRIPTION_AREA_SIZE then
      filePos1 - (fp.blockLength - FILE_DESCRIPTION_AREA_SIZE)
    else filePos1
  (true,
   ⟨{ fp with fdbPos := fdbPos2, filePos := filePos2, crc := 0, length := 0,
              readPos := 0, writePos := 0 }, s.mem⟩)

/-- The bounded binary-search loop of `FindOutFileDescriptionBlock`
(store_file.c): find the first header-invalid slot index in [lo, hi).
The C loop halves `hi − lo` every iteration; `fuel = hi − lo` always
reaches the exit condition. -/
def bsearchAux (valid : Nat → Bool) : Nat → Nat → Nat → Nat
  | 0, lo, _ => lo
  | fuel + 1, lo, hi =>
    if lo < hi then
      let mid := lo + (hi - lo) / 2
      if valid mid then bsearchAux valid fuel (mid + 1) hi else bsearchAux valid fuel lo mid
    else lo

/-- `FindOutFileDescriptionBlock` from store_file.c: locate the last
header-valid FDA slot by binary search, then validate its CRC.  Returns
the `fdbPos` byte offset it stores on success together with the block. -/
def FindOutFileDescriptionBlock (m : Mem) (blockPosition : Nat) :
    Option (Nat × FileDescriptionBlock_t) :=
  let slots := FILE_DESCRIPTION_AREA_SIZE / fdbSize
  if (readFdb m blockPosition).fdbHeader ≠ FILE_DESCRIPTION_BLOCK_HEADER then none
  else
    let lo := bsearchAux
      (fun mid => (readFdb m (blockPosition + mid * fdbSize)).fdbHeader
        == FILE_DESCRIPTION_BLOCK_HEADER) slots 0 slots
    if lo = 0 then none
    else
      let lastIndex := lo - 1
      let fdb := readFdb m (blockPosition + lastIndex * fdbSize)
      let crc := Crc32 CRC32_INITIAL_VALUE (fdbPrefixBytes fdb)
      if fdb.fdbHeader ≠ FILE_DESCRIPTION_BLOCK_HEADER ∨ fdb.fdbCRC ≠ crc then none
      else some (lastIndex * fdbSize, fdb)

/-- `StoreFile_Init` from store_file.c: bind the storage region and set
the file state from the latest valid FDB, or start a fresh file when no
valid FDB is found. -/
def StoreFile_Init (m : Mem) (memoryPosition memoryLength : Nat) : StoreFile_t :=
  match FindOutFileDescriptionBlock m memoryPosition with
  | none =>
    { blockPosition := memoryPosition, blockLength := memoryLength, fdbPos := 0
      filePos := FILE_DESCRIPTION_AREA_SIZE, length := 0, crc := 0, readPos := 0, writePos := 0 }
  | some (fdbPos, fdb) =>
    { blockPosition := memoryPosition, blockLength := memoryLength, fdbPos := fdbPos
      filePos := fdb.filePos, length := fdb.length, crc := fdb.fileCRC, readPos := 0
      writePos := 0 }

/-- One record of the C2 scenario: write a payload, then persist the file
description (a successful `UpdateFileDescription` call). -/
def sfRunUpdates (s : SFState) : List (List Nat) → SFState
  | [] => s
  | p :: ps => sfRunUpdates (StoreFile.UpdateFileDescription true (StoreFile.Write s p).2).2 ps

/- ------------------------------------------------------------------ -/
/- Memory and CRC lemmas.                                              -/
/- ------------------------------------------------------------------ -/

/-- Pointwise description of `memWrite`. -/
theorem memWrite_apply (bs : List Nat) : ∀ (m : Mem) (addr a : Nat),
    memWrite m addr bs a =
      if addr ≤ a ∧ a < addr + bs.length then bs.getD (a - addr) 0 % 256 else m a := by
  induction bs with
  | nil =>
      intro m addr a
      simp only [memWrite, List.length_nil, Nat.add_zero]
      rw [if_neg (by omega)]
  | cons b bs ih =>
      intro m addr a
      rw [memWrite, ih]
      by_cases h1 : addr + 1 ≤ a ∧ a < addr + 1 + bs.length
      · rw [if_pos h1, if_pos (by simp only [List.length_cons]; omega)]
        rw [show a - addr = (a - (addr + 1)) + 1 by omega, List.getD_cons_succ]
      · rw [if_neg h1]
        by_cases h2 : a = addr
        · subst h2
          rw [if_pos rfl, if_pos (by simp only [List.length_cons]; omega)]
          rw [Nat.sub_self, List.getD_cons_zero]
        · rw [if_neg h2, if_neg (by simp only [List.length_cons]; omega)]

/-- `memWrite` leaves addresses outside the written range unchanged. -/
theorem memWrite_outside (m : Mem) (addr : Nat) (bs : List Nat) (a : Nat)
    (h : a < addr ∨ addr + bs.length ≤ a) : memWrite m addr bs a = m a := by
  rw [memWrite_apply, if_neg (by omega)]

/-- `memRead` only depends on the bytes of the range it reads. -/
theorem memRead_congr {m m2 : Mem} (addr n : Nat)
    (h : ∀ a, addr ≤ a → a < addr + n → m a = m2 a) :
    memRead m addr n = memRead m2 addr n := by
  unfold memRead
  apply List.map_congr_left
  intro i hi
  exact h (addr + i) (by omega) (by simp at hi; omega)

/-- Reading back a freshly written range yields the written bytes. -/
theorem memRead_memWrite_self (m : Mem) (addr : Nat) (bs : List Nat) :
    memRead (memWrite m addr bs) addr bs.length = bs.map (· % 256) := by
  unfold memRead
  apply List.ext_getElem (by simp)
  intro i h1 h2
  simp only [List.length_map, List.length_range] at h1 h2
  simp only [List.getElem_map, List.getElem_range]
  rw [memWrite_apply, if_pos (by omega)]
  congr 1
  rw [show addr + i - addr = i by omega]
  exact List.getD_eq_getElem _ _ h2

/-- Splitting a `memRead` of a sum of lengths. -/
theorem memRead_append (m : Mem) (p a b : Nat) :
    memRead m p (a + b) = memRead m p a ++ memRead m (p + a) b := by
  unfold memRead
  rw [List.range_add a b, List.map_append, List.map_map]
  congr 1
  apply List.map_congr_left
  intro i _
  simp only [Function.comp_apply]
  congr 1
  omega

/-- Writing a concatenation is two consecutive writes. -/
theorem memWrite_append (as : List Nat) : ∀ (m : Mem) (addr : Nat) (bs : List Nat),
    memWrite m addr (as ++ bs) = memWrite (memWrite m addr as) (addr + as.length) bs := by
  induction as with
  | nil => intro m addr bs; simp [memWrite]
  | cons a as ih =>
      intro m addr bs
      rw [List.cons_append, memWrite, memWrite, ih]
      simp only [List.length_cons]
      rw [show addr + (as.length + 1) = addr + 1 + as.length by omega]

/-- The CRC streaming law: folding a concatenation equals folding the
pieces in sequence. -/
theorem crc32_append (c : Nat) (a b : List Nat) :
    Crc32 c (a ++ b) = Crc32 (Crc32 c a) b := by
  simp [Crc32, List.foldl_append]

/-- One CRC bit step stays below 2^32. -/
theorem crc32Bit_lt (c : Nat) (h : c < 4294967296) : crc32Bit c < 4294967296 := by
  unfold crc32Bit
  split
  · have h1 : c / 2 < 2 ^ 32 := by omega
    have h2 : (0xEDB88320 : Nat) < 2 ^ 32 := by norm_num
    have h3 := Nat.xor_lt_two_pow h1 h2
    have h4 : (2 : Nat) ^ 32 = 4294967296 := by norm_num
    omega
  · omega

/-- One CRC byte step stays below 2^32. -/
theorem crc32Byte_lt (c b : Nat) (h : c < 4294967296) : crc32Byte c b < 4294967296 := by
  unfold crc32Byte
  have hx : c ^^^ b % 256 < 4294967296 := by
    have h1 : c < 2 ^ 32 := by omega
    have h2 : b % 256 < 2 ^ 32 := by omega
    have h3 := Nat.xor_lt_two_pow h1 h2
    have h4 : (2 : Nat) ^ 32 = 4294967296 := by norm_num
    omega
  have hiter : ∀ n x, x < 4294967296 → crc32Bit^[n] x < 4294967296 := by
    intro n
    induction n with
    | zero => intro x hx2; simpa using hx2
    | succ k ih =>
        intro x hx2
        rw [Function.iterate_succ_apply]
        exact ih _ (crc32Bit_lt x hx2)
  exact hiter 8 _ hx

/-- A streamed CRC stays below 2^32. -/
theorem crc32_lt (bs : List Nat) : ∀ (c : Nat), c < 4294967296 → Crc32 c bs < 4294967296 := by
  induction bs with
  | nil => intro c h; simpa [Crc32] using h
  | cons b bs ih =>
      intro c h
      rw [show Crc32 c (b :: bs) = Crc32 (crc32Byte c b) bs from rfl]
      exact ih _ (crc32Byte_lt c b h)

/-- Reading back a freshly written little-endian uint32. -/
theorem memReadU32_memWrite_u32 (m : Mem) (addr v : Nat) (hv : v < 4294967296) :
    memReadU32 (memWrite m addr (u32ToBytes v)) addr = v := by
  have hlen : (u32ToBytes v).length = 4 := rfl
  have b0 : memWrite m addr (u32ToBytes v) addr = v % 256 % 256 := by
    rw [memWrite_apply, if_pos (by rw [hlen]; omega), Nat.sub_self]
    rfl
  have b1 : memWrite m addr (u32ToBytes v) (addr + 1) = v / 256 % 256 % 256 := by
    rw [memWrite_apply, if_pos (by rw [hlen]; omega), show addr + 1 - addr = 1 by omega]
    rfl
  have b2 : memWrite m addr (u32ToBytes v) (addr + 2) = v / 65536 % 256 % 256 := by
    rw [memWrite_apply, if_pos (by rw [hlen]; omega), show addr + 2 - addr = 2 by omega]
    rfl
  have b3 : memWrite m addr (u32ToBytes v) (addr + 3) = v / 16777216 % 256 % 256 := by
    rw [memWrite_apply, if_pos (by rw [hlen]; omega), show addr + 3 - addr = 3 by omega]
    rfl
  unfold memReadU32
  rw [b0, b1, b2, b3]
  omega

/-- A write entirely outside the four read bytes leaves `memReadU32`
unchanged. -/
theorem memReadU32_memWrite_outside (m : Mem) (addr2 : Nat) (bs : List Nat) (addr : Nat)
    (h : addr + 4 ≤ addr2 ∨ addr2 + bs.length ≤ addr) :
    memReadU32 (memWrite m addr2 bs) addr = memReadU32 m addr := by
  unfold memReadU32
  rw [memWrite_outside m addr2 bs addr (by omega),
    memWrite_outside m addr2 bs (addr + 1) (by omega),
    memWrite_outside m addr2 bs (addr + 2) (by omega),
    memWrite_outside m addr2 bs (addr + 3) (by omega)]

/-- Reading back a freshly programmed FDB recovers its fields. -/
theorem readFdb_memWrite (m : Mem) (addr : Nat) (f : FileDescriptionBlock_t)
    (h1 : f.fdbHeader < 4294967296) (h2 : f.filePos < 4294967296)
    (h3 : f.length < 4294967296) (h4 : f.fileCRC < 4294967296)
    (h5 : f.fdbCRC < 4294967296) :
    readFdb (memWrite m addr (fdbToBytes f)) addr = f := by
  obtain ⟨v1, v2, v3, v4, v5⟩ := f
  simp only at h1 h2 h3 h4 h5
  have hsplit : fdbToBytes ⟨v1, v2, v3, v4, v5⟩ =
      u32ToBytes v1 ++ (u32ToBytes v2 ++ (u32ToBytes v3 ++ (u32ToBytes v4 ++ u32ToBytes v5))) := by
    simp [fdbToBytes, fdbPrefixBytes]
  have l4 : ∀ v : Nat, (u32ToBytes v).length = 4 := fun v => rfl
  rw [hsplit, memWrite_append, memWrite_append, memWrite_append, memWrite_append]
  simp only [l4]
  rw [show addr + 4 + 4 = addr + 8 from by omega,
    show addr + 8 + 4 = addr + 12 from by omega,
    show addr + 12 + 4 = addr + 16 from by omega]
  unfold readFdb
  simp only [FileDescriptionBlock_t.mk.injEq]
  refine ⟨?_, ?_, ?_, ?_, ?_⟩
  · rw [memReadU32_memWrite_outside _ _ _ _ (Or.inl (by omega)),
      memReadU32_memWrite_outside _ _ _ _ (Or.inl (by omega)),
      memReadU32_memWrite_outside _ _ _ _ (Or.inl (by omega)),
      memReadU32_memWrite_outside _ _ _ _ (Or.inl (by omega)),
      memReadU32_memWrite_u32 _ _ _ h1]
  · rw [memReadU32_memWrite_outside _ _ _ _ (Or.inl (by omega)),
      memReadU32_memWrite_outside _ _ _ _ (Or.inl (by omega)),
      memReadU32_memWrite_outside _ _ _ _ (Or.inl (by omega)),
      memReadU32_memWrite_u32 _ _ _ h2]
  · rw [memReadU32_memWrite_outside _ _ _ _ (Or.inl (by omega)),
      memReadU32_memWrite_outside _ _ _ _ (Or.inl (by omega)),
      memReadU32_memWrite_u32 _ _ _ h3]
  · rw [memReadU32_memWrite_outside _ _ _ _ (Or.inl (by omega)),
      memReadU32_memWrite_u32 _ _ _ h4]
  · rw [memReadU32_memWrite_u32 _ _ _ h5]

/-- `Read` only advances the read cursor; the other file scalars and the
memory are untouched. -/
theorem read_frame (s : SFState) (n : Nat) :
    ∃ rp, (StoreFile.Read s n).2.2 = ⟨{ s.file with readPos := rp }, s.mem⟩ := by
  unfold StoreFile.Read
  dsimp only
  repeat' split
  all_goals exact ⟨_, rfl⟩

/-- Behaviour of `Read` when the requested range lies inside the file and
the file lies inside the data area (no wrap, no clamping). -/
theorem read_spec (s : SFState) (n : Nat) (hn : 0 < n)
    (hle : s.file.readPos + n ≤ s.file.length)
    (hds : s.file.length ≤ dataAreaSize s.file) :
    StoreFile.Read s n =
      ((n : Int),
       memRead s.mem (s.file.blockPosition + FILE_DESCRIPTION_AREA_SIZE + s.file.readPos) n,
       ⟨{ s.file with readPos := s.file.readPos + n }, s.mem⟩) := by
  have hFDA : FILE_DESCRIPTION_AREA_SIZE = 4096 := rfl
  unfold dataAreaSize at hds
  rw [hFDA] at hds
  unfold StoreFile.Read
  rw [if_neg (by omega)]
  dsimp only
  rw [if_neg (show ¬s.file.readPos ≥ s.file.length by omega)]
  rw [if_neg (show ¬s.file.readPos + n > s.file.length by omega)]
  rw [if_neg (show ¬s.file.readPos + n > s.file.blockLength - FILE_DESCRIPTION_AREA_SIZE by
    rw [hFDA]; omega)]

/-- The CRC loop only moves the read cursor. -/
theorem calcCrcLoop_frame (fuel : Nat) : ∀ (rem crc : Nat) (s : SFState),
    ∃ rp, (calcCrcLoop fuel rem crc s).2 = ⟨{ s.file with readPos := rp }, s.mem⟩ := by
  induction fuel with
  | zero =>
      intro rem crc s
      exact ⟨s.file.readPos, by obtain ⟨⟨_, _, _, _, _, _, _, _⟩, _⟩ := s; rfl⟩
  | succ fuel ih =>
      intro rem crc s
      rw [calcCrcLoop]
      split
      · exact ⟨s.file.readPos, by obtain ⟨⟨_, _, _, _, _, _, _, _⟩, _⟩ := s; rfl⟩
      · dsimp only
        generalize (if rem < MEM_BLOCK_SIZE then rem else MEM_BLOCK_SIZE) = ch
        obtain ⟨rp1, hrp1⟩ := read_frame s ch
        split
        · exact ⟨rp1, hrp1⟩
        · obtain ⟨rp2, hrp2⟩ := ih (rem - (StoreFile.Read s ch).1.toNat)
            (Crc32 crc (StoreFile.Read s ch).2.1) (StoreFile.Read s ch).2.2
          refine ⟨rp2, ?_⟩
          rw [hrp2, hrp1]

/-- Value and final state of the CRC loop when the file lies inside the
data area: it folds exactly the remaining logical bytes. -/
theorem calcCrcLoop_spec (fuel : Nat) : ∀ (rem crc : Nat) (s : SFState),
    rem ≤ fuel → s.file.readPos + rem = s.file.length →
    s.file.length ≤ dataAreaSize s.file →
    calcCrcLoop fuel rem crc s =
      (Crc32 crc
        (memRead s.mem (s.file.blockPosition + FILE_DESCRIPTION_AREA_SIZE + s.file.readPos) rem),
       ⟨{ s.file with readPos := s.file.length }, s.mem⟩) := by
  induction fuel with
  | zero =>
      intro rem crc s hf hr _
      have h0 : rem = 0 := by omega
      subst h0
      rw [calcCrcLoop]
      have hmr : memRead s.mem
          (s.file.blockPosition + FILE_DESCRIPTION_AREA_SIZE + s.file.readPos) 0 = [] := rfl
      rw [hmr]
      have hst : s = ⟨{ s.file with readPos := s.file.length }, s.mem⟩ := by
        obtain ⟨⟨_, _, _, _, _, _, _, _⟩, _⟩ := s
        simp only at hr
        rw [← hr]
        rfl
      exact congrArg (fun t => (Crc32 crc [], t)) hst
  | succ fuel ih =>
      intro rem crc s hf hr hds
      rw [calcCrcLoop]
      by_cases h0 : rem = 0
      · rw [if_pos h0]
        subst h0
        have hmr : memRead s.mem
            (s.file.blockPosition + FILE_DESCRIPTION_AREA_SIZE + s.file.readPos) 0 = [] := rfl
        rw [hmr]
        have hst : s = ⟨{ s.file with readPos := s.file.length }, s.mem⟩ := by
          obtain ⟨⟨_, _, _, _, _, _, _, _⟩, _⟩ := s
          simp only at hr
          rw [← hr]
          rfl
        exact congrArg (fun t => (Crc32 crc [], t)) hst
      · rw [if_neg h0]
        dsimp only
        have hch : ∃ ch, (if rem < MEM_BLOCK_SIZE then rem else MEM_BLOCK_SIZE) = ch ∧
            0 < ch ∧ ch ≤ rem := by
          refine ⟨_, rfl, ?_, ?_⟩ <;> unfold MEM_BLOCK_SIZE <;> split <;> omega
        obtain ⟨ch, hcheq, hch0, hchle⟩ := hch
        rw [hcheq]
        rw [read_spec s ch hch0 (by omega) hds]
        dsimp only
        rw [if_neg (by omega)]
        rw [Int.toNat_ofNat]
        have hrec := ih (rem - ch)
          (Crc32 crc (memRead s.mem
            (s.file.blockPosition + FILE_DESCRIPTION_AREA_SIZE + s.file.readPos) ch))
          ⟨{ s.file with readPos := s.file.readPos + ch }, s.mem⟩
          (by omega) (by dsimp only; omega) (by dsimp only [dataAreaSize]; exact hds)
        rw [hrec]
        dsimp only
        rw [show s.file.blockPosition + FILE_DESCRIPTION_AREA_SIZE + (s.file.readPos + ch)
          = s.file.blockPosition + FILE_DESCRIPTION_AREA_SIZE + s.file.readPos + ch by omega]
        rw [← crc32_append, ← memRead_append, show ch + (rem - ch) = rem by omega]

/-- `CalculateCRC` returns the file (and the flash) exactly as it found
them, whatever the allocation outcome. -/
theorem calculateCRC_frame (allocOk : Bool) (s : SFState) :
    (StoreFile.CalculateCRC allocOk s).2 = s := by
  unfold StoreFile.CalculateCRC
  split
  · rfl
  · dsimp only
    obtain ⟨rp, hrp⟩ := calcCrcLoop_frame s.file.length s.file.length CRC32_INITIAL_VALUE
      ⟨{ s.file with readPos := 0 }, s.mem⟩
    rw [hrp]

/-- On the successful-allocation path, `CalculateCRC` streams exactly the
`length` logical bytes from position 0 through the CRC. -/
theorem calculateCRC_value (s : SFState) (hds : s.file.length ≤ dataAreaSize s.file) :
    (StoreFile.CalculateCRC true s).1 =
      Crc32 CRC32_INITIAL_VALUE
        (memRead s.mem (s.file.blockPosition + FILE_DESCRIPTION_AREA_SIZE) s.file.length) := by
  unfold StoreFile.CalculateCRC
  rw [if_neg (by simp)]
  dsimp only
  rw [calcCrcLoop_spec s.file.length s.file.length CRC32_INITIAL_VALUE
    ⟨{ s.file with readPos := 0 }, s.mem⟩ (le_refl _) (by dsimp only; omega)
    (by dsimp only [dataAreaSize]; exact hds)]
  dsimp only
  rw [Nat.add_zero]

/-- C9: `CalculateCRC` leaves the file unchanged apart from its return
value — `readPos` is restored and `writePos`, `length`, `filePos` and the
stored `crc` field are untouched — and (when the scratch buffer is
available) the returned value is the CRC32 of the `length` logical bytes
streamed from position 0. -/
theorem calculateCRC_claim (allocOk : Bool) (s : SFState)
    (hds : s.file.length ≤ dataAreaSize s.file) :
    (StoreFile.CalculateCRC allocOk s).2 = s ∧
      (allocOk = true →
        (StoreFile.CalculateCRC allocOk s).1 =
          Crc32 CRC32_INITIAL_VALUE
            (memRead s.mem (s.file.blockPosition + FILE_DESCRIPTION_AREA_SIZE)
              s.file.length)) := by
  refine ⟨calculateCRC_frame allocOk s, ?_⟩
  intro h
  subst h
  exact calculateCRC_value s hds

/-- A fresh store file bound to a two-sector region of erased flash. -/
def sfFresh : SFState := ⟨StoreFile_Init erasedMem 0 8192, erasedMem⟩

/-- Witness for `calculateCRC_claim` on a freshly initialized file. -/
theorem calculateCRC_claim_witness :
    (StoreFile.CalculateCRC true sfFresh).2 = sfFresh ∧
      (true = true →
        (StoreFile.CalculateCRC true sfFresh).1 =
          Crc32 CRC32_INITIAL_VALUE
            (memRead sfFresh.mem (sfFresh.file.blockPosition + FILE_DESCRIPTION_AREA_SIZE)
              sfFresh.file.length)) :=
  calculateCRC_claim true sfFresh (by decide)

/-- C3 counterexample: on a 8192-byte region (data area 4096 bytes), a
3-byte write starting at writePos 4094 wraps; afterwards length equals the
new writePos (1), and reading back from position 0 returns only the single
post-boundary byte — not the three bytes written. -/
theorem write_wrap_roundtrip_counterexample :
    (StoreFile.Write (StoreFile.SetWritePos sfFresh 4094) [10, 20, 30]).2.file.length = 1 ∧
      (StoreFile.Write (StoreFile.SetWritePos sfFresh 4094) [10, 20, 30]).2.file.writePos = 1 ∧
      (StoreFile.Read (StoreFile.SetReadPos
          (StoreFile.Write (StoreFile.SetWritePos sfFresh 4094) [10, 20, 30]).2 0) 3).2.1
        = [30] ∧
      (StoreFile.Read (StoreFile.SetReadPos
          (StoreFile.Write (StoreFile.SetWritePos sfFresh 4094) [10, 20, 30]).2 0) 3).2.1
        ≠ [10, 20, 30] := by
  refine ⟨?_, ?_, ?_, ?_⟩ <;> decide

/-- Reading back a freshly written range, stated with an explicit count. -/
theorem memRead_memWrite_self_of_len (m : Mem) (addr n : Nat) (bs : List Nat)
    (h : bs.length = n) :
    memRead (memWrite m addr bs) addr n = bs.map (· % 256) := by
  subst h
  exact memRead_memWrite_self m addr bs

/-- C3 (amended): a `Write` whose extent crosses the data-area boundary
stores the two parts contiguously — the head at [writePos, B−S) and the
tail from offset 0 — and sets `length` to the new `writePos` (the length
of the tail); consequently a readback from position 0 returns only those
`length` post-boundary bytes, not the whole written sequence. -/
theorem write_wrap_claim (s : SFState) (data : List Nat)
    (hwp : s.file.writePos < dataAreaSize s.file)
    (hwrap : dataAreaSize s.file < s.file.writePos + data.length)
    (hfit : data.length ≤ dataAreaSize s.file) :
    (StoreFile.Write s data).1 = true ∧
    (StoreFile.Write s data).2.file.writePos =
      data.length - (dataAreaSize s.file - s.file.writePos) ∧
    (StoreFile.Write s data).2.file.length = (StoreFile.Write s data).2.file.writePos ∧
    memRead (StoreFile.Write s data).2.mem
        (s.file.blockPosition + FILE_DESCRIPTION_AREA_SIZE + s.file.writePos)
        (dataAreaSize s.file - s.file.writePos)
      = (data.take (dataAreaSize s.file - s.file.writePos)).map (· % 256) ∧
    memRead (StoreFile.Write s data).2.mem
        (s.file.blockPosition + FILE_DESCRIPTION_AREA_SIZE)
        (data.length - (dataAreaSize s.file - s.file.writePos))
      = (data.drop (dataAreaSize s.file - s.file.writePos)).map (· % 256) ∧
    (StoreFile.Read (StoreFile.SetReadPos (StoreFile.Write s data).2 0) data.length).2.1
      = (data.drop (dataAreaSize s.file - s.file.writePos)).map (· % 256) := by
  have hFDA : FILE_DESCRIPTION_AREA_SIZE = 4096 := rfl
  have hda : dataAreaSize s.file = s.file.blockLength - 4096 := by
    unfold dataAreaSize; rw [hFDA]
  have hlen0 : data.length ≠ 0 := by omega
  have htk : (data.take (dataAreaSize s.file - s.file.writePos)).length =
      dataAreaSize s.file - s.file.writePos := by
    rw [List.length_take]; omega
  have hdp : (data.drop (dataAreaSize s.file - s.file.writePos)).length =
      data.length - (dataAreaSize s.file - s.file.writePos) := by
    rw [List.length_drop]
  have hwr : StoreFile.Write s data =
      (true,
       ⟨{ s.file with
            writePos := data.length - (dataAreaSize s.file - s.file.writePos),
            length := data.length - (dataAreaSize s.file - s.file.writePos) },
        memWrite
          (memWrite s.mem (s.file.blockPosition + FILE_DESCRIPTION_AREA_SIZE + s.file.writePos)
            (data.take (s.file.blockLength - FILE_DESCRIPTION_AREA_SIZE - s.file.writePos)))
          (s.file.blockPosition + FILE_DESCRIPTION_AREA_SIZE)
          (data.drop (s.file.blockLength - FILE_DESCRIPTION_AREA_SIZE - s.file.writePos))⟩) := by
    unfold StoreFile.Write
    rw [if_neg hlen0]
    dsimp only
    rw [if_pos (by rw [hFDA]; omega)]
    have he1 : s.file.blockLength - FILE_DESCRIPTION_AREA_SIZE - s.file.writePos =
        dataAreaSize s.file - s.file.writePos := by rw [hFDA]; omega
    rw [he1]
  have he1 : s.file.blockLength - FILE_DESCRIPTION_AREA_SIZE - s.file.writePos =
      dataAreaSize s.file - s.file.writePos := by rw [hFDA]; omega
  rw [hwr]
  dsimp only
  rw [he1]
  refine ⟨rfl, rfl, rfl, ?_, ?_, ?_⟩
  · have hcong : memRead
        (memWrite
          (memWrite s.mem (s.file.blockPosition + FILE_DESCRIPTION_AREA_SIZE + s.file.writePos)
            (data.take (dataAreaSize s.file - s.file.writePos)))
          (s.file.blockPosition + FILE_DESCRIPTION_AREA_SIZE)
          (data.drop (dataAreaSize s.file - s.file.writePos)))
        (s.file.blockPosition + FILE_DESCRIPTION_AREA_SIZE + s.file.writePos)
        (dataAreaSize s.file - s.file.writePos)
      = memRead
          (memWrite s.mem (s.file.blockPosition + FILE_DESCRIPTION_AREA_SIZE + s.file.writePos)
            (data.take (dataAreaSize s.file - s.file.writePos)))
          (s.file.blockPosition + FILE_DESCRIPTION_AREA_SIZE + s.file.writePos)
          (dataAreaSize s.file - s.file.writePos) :=
      memRead_congr _ _ (fun a ha1 ha2 =>
        memWrite_outside _ _ _ a (Or.inr (by rw [hdp]; omega)))
    rw [hcong]
    exact memRead_memWrite_self_of_len _ _ _ _ htk
  · exact memRead_memWrite_self_of_len _ _ _ _ hdp
  · unfold StoreFile.SetReadPos
    rw [if_neg (by dsimp only; omega)]
    unfold StoreFile.Read
    rw [if_neg hlen0]
    dsimp only
    rw [if_neg (show ¬(0 ≥ data.length - (dataAreaSize s.file - s.file.writePos)) by omega)]
    rw [if_pos (show 0 + data.length > data.length - (dataAreaSize s.file - s.file.writePos)
      by omega)]
    rw [if_neg (show ¬(0 + (data.length - (dataAreaSize s.file - s.file.writePos) - 0) >
      s.file.blockLength - FILE_DESCRIPTION_AREA_SIZE) by rw [hFDA]; omega)]
    dsimp only
    rw [Nat.sub_zero, Nat.add_zero]
    exact memRead_memWrite_self_of_len _ _ _ _ hdp

/-- The fresh file with its write cursor moved to 4094, two bytes short
of the data-area boundary. -/
def sfWrapState : SFState := StoreFile.SetWritePos sfFresh 4094

/-- Witness for `write_wrap_claim` on a concrete 3-byte wrapping write. -/
theorem write_wrap_claim_witness :
    (StoreFile.Write sfWrapState [10, 20, 30]).1 = true ∧
    (StoreFile.Write sfWrapState [10, 20, 30]).2.file.writePos =
      [10, 20, 30].length - (dataAreaSize sfWrapState.file - sfWrapState.file.writePos) ∧
    (StoreFile.Write sfWrapState [10, 20, 30]).2.file.length =
      (StoreFile.Write sfWrapState [10, 20, 30]).2.file.writePos ∧
    memRead (StoreFile.Write sfWrapState [10, 20, 30]).2.mem
        (sfWrapState.file.blockPosition + FILE_DESCRIPTION_AREA_SIZE + sfWrapState.file.writePos)
        (dataAreaSize sfWrapState.file - sfWrapState.file.writePos)
      = ([10, 20, 30].take (dataAreaSize sfWrapState.file - sfWrapState.file.writePos)).map
          (· % 256) ∧
    memRead (StoreFile.Write sfWrapState [10, 20, 30]).2.mem
        (sfWrapState.file.blockPosition + FILE_DESCRIPTION_AREA_SIZE)
        ([10, 20, 30].length - (dataAreaSize sfWrapState.file - sfWrapState.file.writePos))
      = ([10, 20, 30].drop (dataAreaSize sfWrapState.file - sfWrapState.file.writePos)).map
          (· % 256) ∧
    (StoreFile.Read (StoreFile.SetReadPos (StoreFile.Write sfWrapState [10, 20, 30]).2 0)
        [10, 20, 30].length).2.1
      = ([10, 20, 30].drop (dataAreaSize sfWrapState.file - sfWrapState.file.writePos)).map
          (· % 256) :=
  write_wrap_claim sfWrapState [10, 20, 30] (by decide) (by decide) (by decide)

/-- Behaviour of `Write` when the bytes fit without crossing the
data-area boundary. -/
theorem write_nowrap_spec (s : SFState) (data : List Nat) (h0 : data ≠ [])
    (hfits : s.file.writePos + data.length ≤ dataAreaSize s.file) :
    StoreFile.Write s data =
      (true,
       ⟨{ s.file with
            writePos := s.file.writePos + data.length,
            length := s.file.writePos + data.length },
        memWrite s.mem (s.file.blockPosition + FILE_DESCRIPTION_AREA_SIZE + s.file.writePos)
          data⟩) := by
  have hFDA : FILE_DESCRIPTION_AREA_SIZE = 4096 := rfl
  unfold dataAreaSize at hfits
  rw [hFDA] at hfits
  unfold StoreFile.Write
  rw [if_neg (by simp [h0])]
  dsimp only
  rw [if_neg (by rw [hFDA]; omega)]

/-- The streamed CRC32 of the current logical content of a file. -/
def contentCRC (s : SFState) : Nat :=
  Crc32 CRC32_INITIAL_VALUE
    (memRead s.mem (s.file.blockPosition + FILE_DESCRIPTION_AREA_SIZE) s.file.length)

/-- Behaviour of `UpdateFileDescription` on the successful-allocation
path: the file CRC is recomputed and an FDB for the current state is
programmed at `fdbPos`. -/
theorem update_spec (s : SFState) (hds : s.file.length ≤ dataAreaSize s.file) :
    StoreFile.UpdateFileDescription true s =
      (true,
       ⟨{ s.file with crc := contentCRC s },
        memWrite s.mem (s.file.blockPosition + s.file.fdbPos)
          (fdbToBytes
            ⟨FILE_DESCRIPTION_BLOCK_HEADER, s.file.filePos, s.file.length, contentCRC s,
             Crc32 CRC32_INITIAL_VALUE (fdbPrefixBytes
               ⟨FILE_DESCRIPTION_BLOCK_HEADER, s.file.filePos, s.file.length,
                contentCRC s, 0⟩)⟩)⟩) := by
  unfold StoreFile.UpdateFileDescription
  dsimp only
  rw [calculateCRC_frame, calculateCRC_value s hds]
  rfl

/-- The binary-search loop on a validity predicate that holds exactly on
a prefix [0, k) of the probed range returns k. -/
theorem bsearchAux_prefix (valid : Nat → Bool) (k : Nat) :
    ∀ (fuel lo hi : Nat), lo ≤ k → k ≤ hi → hi - lo ≤ fuel →
      (∀ i, lo ≤ i → i < hi → (valid i = true ↔ i < k)) →
      bsearchAux valid fuel lo hi = k := by
  intro fuel
  induction fuel with
  | zero =>
      intro lo hi h1 h2 h3 _
      rw [bsearchAux]
      omega
  | succ fuel ih =>
      intro lo hi h1 h2 h3 hv
      rw [bsearchAux]
      by_cases hlh : lo < hi
      · rw [if_pos hlh]
        dsimp only
        by_cases hvm : valid (lo + (hi - lo) / 2) = true
        · rw [if_pos hvm]
          have hmk : lo + (hi - lo) / 2 < k := (hv _ (by omega) (by omega)).mp hvm
          exact ih (lo + (hi - lo) / 2 + 1) hi (by omega) h2 (by omega)
            (fun i hi1 hi2 => hv i (by omega) hi2)
        · rw [if_neg hvm]
          have hmk : ¬ lo + (hi - lo) / 2 < k := fun hc =>
            hvm ((hv _ (by omega) (by omega)).mpr hc)
          exact ih lo (lo + (hi - lo) / 2) h1 (by omega) (by omega)
            (fun i hi1 hi2 => hv i hi1 (by omega))
      · rw [if_neg hlh]
        omega

/-- Four erased bytes read back as the all-ones uint32. -/
theorem memReadU32_erased (bp : Nat) : memReadU32 erasedMem bp = 4294967295 := by
  unfold memReadU32 erasedMem
  norm_num

/-- On erased flash no FDB is found. -/
theorem findOut_erased (bp : Nat) : FindOutFileDescriptionBlock erasedMem bp = none := by
  unfold FindOutFileDescriptionBlock
  rw [if_pos]
  show (readFdb erasedMem bp).fdbHeader ≠ FILE_DESCRIPTION_BLOCK_HEADER
  unfold readFdb
  dsimp only
  rw [memReadU32_erased]
  unfold FILE_DESCRIPTION_BLOCK_HEADER
  omega

/-- `StoreFile_Init` when no valid FDB is found: the fresh-file state. -/
theorem storeFile_init_eq_none (m : Mem) (bp bl : Nat)
    (h : FindOutFileDescriptionBlock m bp = none) :
    StoreFile_Init m bp bl = ⟨bp, bl, 0, FILE_DESCRIPTION_AREA_SIZE, 0, 0, 0, 0⟩ := by
  unfold StoreFile_Init
  rw [h]

/-- `StoreFile_Init` when a valid FDB is found: state taken from the
FDB. -/
theorem storeFile_init_eq_some (m : Mem) (bp bl fdbPos : Nat)
    (fdb : FileDescriptionBlock_t)
    (h : FindOutFileDescriptionBlock m bp = some (fdbPos, fdb)) :
    StoreFile_Init m bp bl =
      ⟨bp, bl, fdbPos, fdb.filePos, fdb.length, fdb.fileCRC, 0, 0⟩ := by
  unfold StoreFile_Init
  rw [h]

/-- A fresh `StoreFile_Init` on erased flash yields the fresh-file
state. -/
theorem storeFile_init_erased (bp bl : Nat) :
    StoreFile_Init erasedMem bp bl =
      ⟨bp, bl, 0, FILE_DESCRIPTION_AREA_SIZE, 0, 0, 0, 0⟩ :=
  storeFile_init_eq_none erasedMem bp bl (findOut_erased bp)

/-- The 20-byte size of a packed FDB. -/
theorem fdbToBytes_length (f : FileDescriptionBlock_t) : (fdbToBytes f).length = 20 := by
  simp [fdbToBytes, fdbPrefixBytes, u32ToBytes]

/-- One record of the C2 scenario (write a payload, persist the FDB) on a
file bound to FDA slot 0: the scalar invariants are preserved, the FDA
beyond slot 0 stays erased, and slot 0 afterwards holds exactly the FDB
of this `UpdateFileDescription`. -/
theorem sfRecord_step (bp bl : Nat) (hbl : 4096 ≤ bl) (hbl32 : bl < 4294967296)
    (s : SFState) (p : List Nat)
    (h1 : s.file.blockPosition = bp) (h2 : s.file.blockLength = bl)
    (h3 : s.file.fdbPos = 0) (h4 : s.file.filePos = FILE_DESCRIPTION_AREA_SIZE)
    (h5 : s.file.writePos = s.file.length)
    (h6 : s.file.length + p.length ≤ bl - 4096)
    (h7 : ∀ a, bp + 20 ≤ a → a < bp + 4096 → s.mem a = 255) :
    (StoreFile.UpdateFileDescription true (StoreFile.Write s p).2).2.file.blockPosition = bp ∧
    (StoreFile.UpdateFileDescription true (StoreFile.Write s p).2).2.file.blockLength = bl ∧
    (StoreFile.UpdateFileDescription true (StoreFile.Write s p).2).2.file.fdbPos = 0 ∧
    (StoreFile.UpdateFileDescription true (StoreFile.Write s p).2).2.file.filePos =
      FILE_DESCRIPTION_AREA_SIZE ∧
    (StoreFile.UpdateFileDescription true (StoreFile.Write s p).2).2.file.writePos =
      (StoreFile.UpdateFileDescription true (StoreFile.Write s p).2).2.file.length ∧
    (StoreFile.UpdateFileDescription true (StoreFile.Write s p).2).2.file.length =
      s.file.length + p.length ∧
    (StoreFile.UpdateFileDescription true (StoreFile.Write s p).2).2.file.crc < 4294967296 ∧
    (∀ a, bp + 20 ≤ a → a < bp + 4096 →
      (StoreFile.UpdateFileDescription true (StoreFile.Write s p).2).2.mem a = 255) ∧
    readFdb (StoreFile.UpdateFileDescription true (StoreFile.Write s p).2).2.mem bp =
      ⟨FILE_DESCRIPTION_BLOCK_HEADER, FILE_DESCRIPTION_AREA_SIZE,
       (StoreFile.UpdateFileDescription true (StoreFile.Write s p).2).2.file.length,
       (StoreFile.UpdateFileDescription true (StoreFile.Write s p).2).2.file.crc,
       Crc32 CRC32_INITIAL_VALUE (fdbPrefixBytes
         ⟨FILE_DESCRIPTION_BLOCK_HEADER, FILE_DESCRIPTION_AREA_SIZE,
          (StoreFile.UpdateFileDescription true (StoreFile.Write s p).2).2.file.length,
          (StoreFile.UpdateFileDescription true (StoreFile.Write s p).2).2.file.crc, 0⟩)⟩ := by
  have hFDA : FILE_DESCRIPTION_AREA_SIZE = 4096 := rfl
  have hinit : CRC32_INITIAL_VALUE < 4294967296 := by decide
  have hhdr : FILE_DESCRIPTION_BLOCK_HEADER < 4294967296 := by decide
  by_cases hp : p = []
  · subst hp
    have hw : StoreFile.Write s [] = (false, s) := by
      unfold StoreFile.Write
      rw [if_pos (show ([] : List Nat).length = 0 from rfl)]
    rw [hw]
    have hds : s.file.length ≤ dataAreaSize s.file := by
      unfold dataAreaSize
      rw [hFDA, h2]
      simp only [List.length_nil] at h6
      omega
    rw [update_spec s hds]
    dsimp only
    rw [h1, h2, h3, h4, h5, Nat.add_zero]
    have hcrc : contentCRC s < 4294967296 := crc32_lt _ _ hinit
    have hlen32 : s.file.length < 4294967296 := by
      simp only [List.length_nil] at h6
      omega
    refine ⟨rfl, rfl, rfl, rfl, rfl, by simp, hcrc, ?_, ?_⟩
    · intro a ha1 ha2
      rw [memWrite_outside _ _ _ a (Or.inr (by rw [fdbToBytes_length]; omega))]
      exact h7 a ha1 ha2
    · rw [Nat.add_zero]
      rw [readFdb_memWrite s.mem bp _ hhdr (by norm_num [FILE_DESCRIPTION_AREA_SIZE]) hlen32 hcrc
        (crc32_lt _ _ hinit)]
  · have hfits : s.file.writePos + p.length ≤ dataAreaSize s.file := by
      unfold dataAreaSize
      rw [hFDA, h2, h5]
      omega
    rw [write_nowrap_spec s p hp hfits]
    dsimp only
    have hds : s.file.writePos + p.length ≤ bl - FILE_DESCRIPTION_AREA_SIZE := by
      rw [hFDA, h5]
      omega
    rw [update_spec _ (by dsimp only [dataAreaSize]; rw [h2]; exact hds)]
    dsimp only
    rw [h1, h2, h3, h4, h5, Nat.add_zero]
    have hcrc : ∀ m2 : Mem, Crc32 CRC32_INITIAL_VALUE
        (memRead m2 (bp + FILE_DESCRIPTION_AREA_SIZE) (s.file.length + p.length))
        < 4294967296 := fun m2 => crc32_lt _ _ hinit
    have hlen32 : s.file.length + p.length < 4294967296 := by omega
    refine ⟨rfl, rfl, rfl, rfl, rfl, rfl, ?_, ?_, ?_⟩
    · exact hcrc _
    · intro a ha1 ha2
      rw [memWrite_outside _ _ _ a (Or.inr (by rw [fdbToBytes_length]; omega))]
      rw [memWrite_outside _ _ _ a (Or.inl (by rw [hFDA]; omega))]
      exact h7 a ha1 ha2
    · rw [Nat.add_zero]
      rw [readFdb_memWrite _ bp _ hhdr (by norm_num [FILE_DESCRIPTION_AREA_SIZE]) hlen32 (hcrc _)
        (crc32_lt _ _ hinit)]

/-- Running any further records preserves the invariant, including the
slot-0 FDB contents. -/
theorem sfRunUpdates_inv (bp bl : Nat) (hbl : 4096 ≤ bl) (hbl32 : bl < 4294967296) :
    ∀ (ps : List (List Nat)) (s : SFState),
      s.file.blockPosition = bp → s.file.blockLength = bl → s.file.fdbPos = 0 →
      s.file.filePos = FILE_DESCRIPTION_AREA_SIZE →
      s.file.writePos = s.file.length →
      s.file.length + (ps.map List.length).sum ≤ bl - 4096 →
      (∀ a, bp + 20 ≤ a → a < bp + 4096 → s.mem a = 255) →
      s.file.crc < 4294967296 →
      readFdb s.mem bp =
        ⟨FILE_DESCRIPTION_BLOCK_HEADER, FILE_DESCRIPTION_AREA_SIZE,
         s.file.length, s.file.crc,
         Crc32 CRC32_INITIAL_VALUE (fdbPrefixBytes
           ⟨FILE_DESCRIPTION_BLOCK_HEADER, FILE_DESCRIPTION_AREA_SIZE,
            s.file.length, s.file.crc, 0⟩)⟩ →
      (sfRunUpdates s ps).file.fdbPos = 0 ∧
      (sfRunUpdates s ps).file.filePos = FILE_DESCRIPTION_AREA_SIZE ∧
      (sfRunUpdates s ps).file.writePos = (sfRunUpdates s ps).file.length ∧
      (∀ a, bp + 20 ≤ a → a < bp + 4096 → (sfRunUpdates s ps).mem a = 255) ∧
      (sfRunUpdates s ps).file.crc < 4294967296 ∧
      readFdb (sfRunUpdates s ps).mem bp =
        ⟨FILE_DESCRIPTION_BLOCK_HEADER, FILE_DESCRIPTION_AREA_SIZE,
         (sfRunUpdates s ps).file.length, (sfRunUpdates s ps).file.crc,
         Crc32 CRC32_INITIAL_VALUE (fdbPrefixBytes
           ⟨FILE_DESCRIPTION_BLOCK_HEADER, FILE_DESCRIPTION_AREA_SIZE,
            (sfRunUpdates s ps).file.length, (sfRunUpdates s ps).file.crc, 0⟩)⟩ := by
  intro ps
  induction ps with
  | nil =>
      intro s h1 h2 h3 h4 h5 h6 h7 h8 h9
      exact ⟨h3, h4, h5, h7, h8, h9⟩
  | cons p ps ih =>
      intro s h1 h2 h3 h4 h5 h6 h7 h8 h9
      simp only [List.map_cons, List.sum_cons] at h6
      obtain ⟨g1, g2, g3, g4, g5, g6, g7, g8, g9⟩ :=
        sfRecord_step bp bl hbl hbl32 s p h1 h2 h3 h4 h5 (by omega) h7
      show _ ∧ _ ∧ _ ∧ _ ∧ _ ∧ _
      rw [show sfRunUpdates s (p :: ps) =
        sfRunUpdates (StoreFile.UpdateFileDescription true (StoreFile.Write s p).2).2 ps
        from rfl]
      exact ih (StoreFile.UpdateFileDescription true (StoreFile.Write s p).2).2
        g1 g2 g3 g4 g5 (by omega) g8 g7 g9

/-- When slot 0 holds a CRC-valid FDB and the rest of the FDA is erased,
`FindOutFileDescriptionBlock` locates exactly slot 0. -/
theorem findOut_slot0 (m : Mem) (bp : Nat) (fdb : FileDescriptionBlock_t)
    (hslot : readFdb m bp = fdb)
    (hhdr : fdb.fdbHeader = FILE_DESCRIPTION_BLOCK_HEADER)
    (hcrc : fdb.fdbCRC = Crc32 CRC32_INITIAL_VALUE (fdbPrefixBytes fdb))
    (herased : ∀ a, bp + 20 ≤ a → a < bp + 4096 → m a = 255) :
    FindOutFileDescriptionBlock m bp = some (0, fdb) := by
  have hsz : fdbSize = 20 := rfl
  unfold FindOutFileDescriptionBlock
  rw [if_neg (by rw [hslot, hhdr]; simp)]
  dsimp only
  have hb : bsearchAux
      (fun mid => (readFdb m (bp + mid * fdbSize)).fdbHeader == FILE_DESCRIPTION_BLOCK_HEADER)
      (FILE_DESCRIPTION_AREA_SIZE / fdbSize) 0 (FILE_DESCRIPTION_AREA_SIZE / fdbSize) = 1 := by
    apply bsearchAux_prefix _ 1 _ 0 _ (by omega)
      (by norm_num [FILE_DESCRIPTION_AREA_SIZE, fdbSize]) (by simp)
    intro i _ hi
    rw [show FILE_DESCRIPTION_AREA_SIZE / fdbSize = 204 from rfl] at hi
    constructor
    · intro hv
      rw [beq_iff_eq] at hv
      by_contra hge
      have hiv : (readFdb m (bp + i * fdbSize)).fdbHeader = 4294967295 := by
        unfold readFdb
        dsimp only
        unfold memReadU32
        rw [herased (bp + i * fdbSize) (by rw [hsz]; omega) (by rw [hsz]; omega),
          herased (bp + i * fdbSize + 1) (by rw [hsz]; omega) (by rw [hsz]; omega),
          herased (bp + i * fdbSize + 2) (by rw [hsz]; omega) (by rw [hsz]; omega),
          herased (bp + i * fdbSize + 3) (by rw [hsz]; omega) (by rw [hsz]; omega)]
      rw [hiv] at hv
      have hlit : FILE_DESCRIPTION_BLOCK_HEADER = 2779077210 := by decide
      omega
    · intro hi1
      have hi0 : i = 0 := by omega
      subst hi0
      rw [show bp + 0 * fdbSize = bp by omega, hslot, hhdr]
      exact beq_self_eq_true _
  rw [hb]
  rw [if_neg (by omega)]
  rw [show (1 : Nat) - 1 = 0 from rfl]
  rw [show bp + 0 * fdbSize = bp by omega]
  rw [hslot]
  rw [if_neg (by
    rw [hhdr, ← hcrc]
    simp)]
  rw [show (0 : Nat) * fdbSize = 0 by omega]

/-- First record of the corrupted-FDB scenario: payload [1,2,3] persisted
at slot 0. -/
def sfDemo1 : SFState :=
  (StoreFile.UpdateFileDescription true (StoreFile.Write sfFresh [1, 2, 3]).2).2

/-- Second record: after `NewFile`, payload [4,5,6,7,8] persisted at
slot 1. -/
def sfDemo2 : SFState :=
  (StoreFile.UpdateFileDescription true
    (StoreFile.Write (StoreFile.NewFile sfDemo1).2 [4, 5, 6, 7, 8]).2).2

/-- The same flash with one byte of slot 1's stored `fdbCRC` flipped. -/
def sfCorruptedMem : Mem := memWrite sfDemo2.mem 36 [(sfDemo2.mem 36 + 1) % 256]

set_option maxRecDepth 100000 in
/-- C2 counterexample: slot 0 holds a CRC-valid FDB with length 3 and
slot 1's stored `fdbCRC` does not match its recomputed CRC32; yet a fresh
`StoreFile_Init` does not return the state of the last valid FDB before
the corrupted slot — it returns the fresh-file state (length 0). -/
theorem paramfile_corrupted_counterexample :
    (readFdb sfCorruptedMem 0).fdbHeader = FILE_DESCRIPTION_BLOCK_HEADER ∧
    (readFdb sfCorruptedMem 0).fdbCRC =
      Crc32 CRC32_INITIAL_VALUE (fdbPrefixBytes (readFdb sfCorruptedMem 0)) ∧
    (readFdb sfCorruptedMem 0).length = 3 ∧
    (readFdb sfCorruptedMem 20).fdbHeader = FILE_DESCRIPTION_BLOCK_HEADER ∧
    (readFdb sfCorruptedMem 20).fdbCRC ≠
      Crc32 CRC32_INITIAL_VALUE (fdbPrefixBytes (readFdb sfCorruptedMem 20)) ∧
    (StoreFile_Init sfCorruptedMem 0 8192).length = 0 ∧
    (StoreFile_Init sfCorruptedMem 0 8192).length ≠ (readFdb sfCorruptedMem 0).length := by
  refine ⟨?_, ?_, ?_, ?_, ?_, ?_, ?_⟩ <;> decide

set_option maxRecDepth 100000 in
/-- On the corrupted two-record flash, a fresh `Init` returns the
fresh-file state. -/
theorem sfCorrupted_init_fresh :
    StoreFile_Init sfCorruptedMem 0 8192 = ⟨0, 8192, 0, 4096, 0, 0, 0, 0⟩ := by
  decide

/-- The CRC-covered prefix of an FDB does not involve its `fdbCRC`
field. -/
theorem fdbPrefixBytes_ignores_crc (a b c d e1 e2 : Nat) :
    fdbPrefixBytes ⟨a, b, c, d, e1⟩ = fdbPrefixBytes ⟨a, b, c, d, e2⟩ := rfl

/-- An FDB whose `fdbCRC` was computed over its own prefix satisfies the
CRC check. -/
theorem fdb_selfcrc (a b c d : Nat) :
    (⟨a, b, c, d, Crc32 CRC32_INITIAL_VALUE (fdbPrefixBytes ⟨a, b, c, d, 0⟩)⟩ :
      FileDescriptionBlock_t).fdbCRC =
      Crc32 CRC32_INITIAL_VALUE (fdbPrefixBytes
        (⟨a, b, c, d, Crc32 CRC32_INITIAL_VALUE (fdbPrefixBytes ⟨a, b, c, d, 0⟩)⟩ :
          FileDescriptionBlock_t)) :=
  congrArg (Crc32 CRC32_INITIAL_VALUE) (fdbPrefixBytes_ignores_crc a b c d 0 _)

/-- C2 (amended): after any number M ≥ 1 of successful
`UpdateFileDescription` calls (each record writes its payload and
persists the FDB at slot 0 of the FDA), a fresh `StoreFile_Init` locates
the FDB by binary search over the prefix of header-valid FDA slots and
recovers exactly the `fdbPos`, `filePos`, `length` and `fileCRC` written
by the M-th (latest) FDB; but when the located FDB's stored `fdbCRC` does
not match the recomputed CRC32, `Init` does not fall back to the last
valid FDB before the corrupted slot — it returns the fresh-file state
(`fdbPos = 0`, `filePos = S`, `length = 0`, `crc = 0`). -/
theorem paramfile_latest_valid_claim (bp bl : Nat) (ps : List (List Nat))
    (hbl : 4096 ≤ bl) (hbl32 : bl < 4294967296) (hps : ps ≠ [])
    (hsum : (ps.map List.length).sum ≤ bl - 4096) :
    ((StoreFile_Init (sfRunUpdates ⟨StoreFile_Init erasedMem bp bl, erasedMem⟩ ps).mem
        bp bl).fdbPos
      = (sfRunUpdates ⟨StoreFile_Init erasedMem bp bl, erasedMem⟩ ps).file.fdbPos ∧
     (StoreFile_Init (sfRunUpdates ⟨StoreFile_Init erasedMem bp bl, erasedMem⟩ ps).mem
        bp bl).filePos
      = (sfRunUpdates ⟨StoreFile_Init erasedMem bp bl, erasedMem⟩ ps).file.filePos ∧
     (StoreFile_Init (sfRunUpdates ⟨StoreFile_Init erasedMem bp bl, erasedMem⟩ ps).mem
        bp bl).length
      = (sfRunUpdates ⟨StoreFile_Init erasedMem bp bl, erasedMem⟩ ps).file.length ∧
     (StoreFile_Init (sfRunUpdates ⟨StoreFile_Init erasedMem bp bl, erasedMem⟩ ps).mem
        bp bl).crc
      = (sfRunUpdates ⟨StoreFile_Init erasedMem bp bl, erasedMem⟩ ps).file.crc) ∧
    StoreFile_Init sfCorruptedMem 0 8192 = ⟨0, 8192, 0, 4096, 0, 0, 0, 0⟩ := by
  constructor
  · obtain ⟨p, ps', rfl⟩ : ∃ p ps', ps = p :: ps' := by
      cases ps with
      | nil => exact absurd rfl hps
      | cons p ps' => exact ⟨p, ps', rfl⟩
    simp only [List.map_cons, List.sum_cons] at hsum
    have hinit : StoreFile_Init erasedMem bp bl =
        ⟨bp, bl, 0, FILE_DESCRIPTION_AREA_SIZE, 0, 0, 0, 0⟩ := storeFile_init_erased bp bl
    obtain ⟨g1, g2, g3, g4, g5, g6, g7, g8, g9⟩ :=
      sfRecord_step bp bl hbl hbl32 ⟨StoreFile_Init erasedMem bp bl, erasedMem⟩ p
        (by rw [hinit]) (by rw [hinit]) (by rw [hinit]) (by rw [hinit]) (by rw [hinit])
        (by rw [hinit]; show 0 + p.length ≤ bl - 4096; omega)
        (fun a _ _ => rfl)
    obtain ⟨r1, r2, r3, r4, r5, r6⟩ :=
      sfRunUpdates_inv bp bl hbl hbl32 ps'
        (StoreFile.UpdateFileDescription true
          (StoreFile.Write ⟨StoreFile_Init erasedMem bp bl, erasedMem⟩ p).2).2
        g1 g2 g3 g4 g5
        (by rw [g6, hinit]
            show 0 + p.length + (List.map List.length ps').sum ≤ bl - 4096
            omega)
        g8 g7 g9
    simp only [sfRunUpdates]
    rw [storeFile_init_eq_some _ bp bl 0 _ (findOut_slot0 _ bp _ r6 rfl (fdb_selfcrc _ _ _ _) r4)]
    exact ⟨r1.symm, r2.symm, rfl, rfl⟩
  · exact sfCorrupted_init_fresh

/-- Witness for `paramfile_latest_valid_claim` on the configured 1 MiB
parameter region with one update of payload [1, 2, 3]. -/
theorem paramfile_latest_valid_claim_witness :
    ((StoreFile_Init (sfRunUpdates
        ⟨StoreFile_Init erasedMem 4194304 1048576, erasedMem⟩ [[1, 2, 3]]).mem
        4194304 1048576).fdbPos
      = (sfRunUpdates ⟨StoreFile_Init erasedMem 4194304 1048576, erasedMem⟩
          [[1, 2, 3]]).file.fdbPos ∧
     (StoreFile_Init (sfRunUpdates
        ⟨StoreFile_Init erasedMem 4194304 1048576, erasedMem⟩ [[1, 2, 3]]).mem
        4194304 1048576).filePos
      = (sfRunUpdates ⟨StoreFile_Init erasedMem 4194304 1048576, erasedMem⟩
          [[1, 2, 3]]).file.filePos ∧
     (StoreFile_Init (sfRunUpdates
        ⟨StoreFile_Init erasedMem 4194304 1048576, erasedMem⟩ [[1, 2, 3]]).mem
        4194304 1048576).length
      = (sfRunUpdates ⟨StoreFile_Init erasedMem 4194304 1048576, erasedMem⟩
          [[1, 2, 3]]).file.length ∧
     (StoreFile_Init (sfRunUpdates
        ⟨StoreFile_Init erasedMem 4194304 1048576, erasedMem⟩ [[1, 2, 3]]).mem
        4194304 1048576).crc
      = (sfRunUpdates ⟨StoreFile_Init erasedMem 4194304 1048576, erasedMem⟩
          [[1, 2, 3]]).file.crc) ∧
    StoreFile_Init sfCorruptedMem 0 8192 = ⟨0, 8192, 0, 4096, 0, 0, 0, 0⟩ :=
  paramfile_latest_valid_claim 4194304 1048576 [[1, 2, 3]] (by norm_num) (by norm_num)
    (by simp) (by simp)

/-!
## Odometry (two_wheel_odometry.c, spec section 4.6)
-/

/-- Odometry state: the module-level statics of two_wheel_odometry.c
(lastPositionL, lastPositionR, x, y, theta, velocity, omega), idealized over
the real numbers since the update rules involve trigonometry. -/
structure OdomState where
  lastPositionL : ℝ
  lastPositionR : ℝ
  x : ℝ
  y : ℝ
  theta : ℝ
  velocity : ℝ
  omega : ℝ

/-- The loop `while (theta > PI) theta -= 2.0f * PI;` of
TwoWheelOdometry_Update (two_wheel_odometry.c:91), with the single-precision
constant PI idealized as the real number pi. -/
noncomputable def wrapDown (theta : ℝ) : ℝ :=
  if h : Real.pi < theta then wrapDown (theta - 2 * Real.pi) else theta
termination_by Nat.ceil ((theta - Real.pi) / (2 * Real.pi))
decreasing_by
  have hpi : (0:ℝ) < 2 * Real.pi := by positivity
  have hx : 0 < (theta - Real.pi) / (2 * Real.pi) := div_pos (by linarith) hpi
  have h1 : 1 ≤ Nat.ceil ((theta - Real.pi) / (2 * Real.pi)) := Nat.ceil_pos.mpr hx
  have h2 : (theta - 2 * Real.pi - Real.pi) / (2 * Real.pi)
      = (theta - Real.pi) / (2 * Real.pi) - 1 := by
    field_simp
    ring
  have h4 : Nat.ceil ((theta - Real.pi) / (2 * Real.pi) - 1)
      ≤ Nat.ceil ((theta - Real.pi) / (2 * Real.pi)) - 1 := by
    apply Nat.ceil_le.mpr
    rw [Nat.cast_sub h1]
    have h5 := Nat.le_ceil ((theta - Real.pi) / (2 * Real.pi))
    push_cast
    linarith
  rw [h2]
  omega

/-- The loop `while (theta < -PI) theta += 2.0f * PI;` of
TwoWheelOdometry_Update (two_wheel_odometry.c:92). -/
noncomputable def wrapUp (theta : ℝ) : ℝ :=
  if h : theta < -Real.pi then wrapUp (theta + 2 * Real.pi) else theta
termination_by Nat.ceil ((-Real.pi - theta) / (2 * Real.pi))
decreasing_by
  have hpi : (0:ℝ) < 2 * Real.pi := by positivity
  have hx : 0 < (-Real.pi - theta) / (2 * Real.pi) := div_pos (by linarith) hpi
  have h1 : 1 ≤ Nat.ceil ((-Real.pi - theta) / (2 * Real.pi)) := Nat.ceil_pos.mpr hx
  have h2 : (-Real.pi - (theta + 2 * Real.pi)) / (2 * Real.pi)
      = (-Real.pi - theta) / (2 * Real.pi) - 1 := by
    field_simp
    ring
  have h4 : Nat.ceil ((-Real.pi - theta) / (2 * Real.pi) - 1)
      ≤ Nat.ceil ((-Real.pi - theta) / (2 * Real.pi)) - 1 := by
    apply Nat.ceil_le.mpr
    rw [Nat.cast_sub h1]
    have h5 := Nat.le_ceil ((-Real.pi - theta) / (2 * Real.pi))
    push_cast
    linarith
  rw [h2]
  omega

/-- The normalization sequence of two_wheel_odometry.c:91-92: first the
downward loop, then the upward loop, in source order. -/
noncomputable def normalizeTheta (theta : ℝ) : ℝ :=
  wrapUp (wrapDown theta)

/-- The local variable dS of TwoWheelOdometry_Update
(two_wheel_odometry.c:76), named so the theorems can refer to it. -/
noncomputable def odomDS (wheelRadius : ℝ) (st : OdomState) (posL posR : ℝ) : ℝ :=
  ((posL * wheelRadius - st.lastPositionL) + (posR * wheelRadius - st.lastPositionR)) / 2

/-- The local variable dTheta of TwoWheelOdometry_Update
(two_wheel_odometry.c:77). -/
noncomputable def odomDTheta (wheelRadius trackWidth : ℝ) (st : OdomState) (posL posR : ℝ) : ℝ :=
  ((posR * wheelRadius - st.lastPositionR) - (posL * wheelRadius - st.lastPositionL)) / trackWidth

/-- TwoWheelOdometry_Update (two_wheel_odometry.c:63-99): wheel angles are
scaled by wheelRadius, deltas against the stored last positions give dS and
dTheta, the pose is updated by the straight rule when
dTheta < 1e-6 && dTheta > -1e-6 and by the midpoint-arc rule (followed by the
two normalization loops) otherwise, and velocity and omega are dS/dt and
dTheta/dt. The C function always returns true, so only the state is modelled;
arm_cos_f32 and arm_sin_f32 are idealized as Real.cos and Real.sin. -/
noncomputable def TwoWheelOdometry_Update (wheelRadius trackWidth : ℝ)
    (st : OdomState) (posL posR dt : ℝ) : OdomState :=
  let positionL := posL * wheelRadius
  let positionR := posR * wheelRadius
  let deltaL := positionL - st.lastPositionL
  let deltaR := positionR - st.lastPositionR
  let dS := (deltaL + deltaR) / 2
  let dTheta := (deltaR - deltaL) / trackWidth
  if dTheta < 1 / 1000000 ∧ -(1 / 1000000) < dTheta then
    { lastPositionL := positionL
      lastPositionR := positionR
      x := st.x + dS * Real.cos st.theta
      y := st.y + dS * Real.sin st.theta
      theta := st.theta
      velocity := dS / dt
      omega := dTheta / dt }
  else
    { lastPositionL := positionL
      lastPositionR := positionR
      x := st.x + dS * Real.cos (st.theta + dTheta / 2)
      y := st.y + dS * Real.sin (st.theta + dTheta / 2)
      theta := normalizeTheta (st.theta + dTheta)
      velocity := dS / dt
      omega := dTheta / dt }

/-- TwoWheelOdometry_Reset (two_wheel_odometry.c:105-114): all statics back
to zero. -/
noncomputable def TwoWheelOdometry_Reset : OdomState :=
  ⟨0, 0, 0, 0, 0, 0, 0⟩

theorem wrapDown_eq_self (theta : ℝ) (h : theta ≤ Real.pi) : wrapDown theta = theta := by
  rw [wrapDown, dif_neg (not_lt.mpr h)]

theorem wrapUp_eq_self (theta : ℝ) (h : -Real.pi ≤ theta) : wrapUp theta = theta := by
  rw [wrapUp, dif_neg (not_lt.mpr h)]

theorem wrapDown_spec : ∀ (n : Nat) (theta : ℝ),
    Nat.ceil ((theta - Real.pi) / (2 * Real.pi)) ≤ n →
    wrapDown theta ≤ Real.pi ∧ ∃ k : ℕ, wrapDown theta = theta - 2 * Real.pi * k := by
  intro n
  induction n with
  | zero =>
    intro theta h
    have hpi : (0:ℝ) < 2 * Real.pi := by positivity
    have hx : (theta - Real.pi) / (2 * Real.pi) ≤ 0 := by
      by_contra hc
      push_neg at hc
      have := Nat.ceil_pos.mpr hc
      omega
    have h2 : theta - Real.pi = (theta - Real.pi) / (2 * Real.pi) * (2 * Real.pi) := by
      field_simp
    have h3 : (theta - Real.pi) / (2 * Real.pi) * (2 * Real.pi) ≤ 0 :=
      mul_nonpos_iff.mpr (Or.inr ⟨hx, hpi.le⟩)
    have hth : theta ≤ Real.pi := by linarith [h2, h3]
    rw [wrapDown_eq_self theta hth]
    exact ⟨hth, 0, by push_cast; ring⟩
  | succ n ih =>
    intro theta h
    by_cases hgt : Real.pi < theta
    · rw [wrapDown, dif_pos hgt]
      have hpi : (0:ℝ) < 2 * Real.pi := by positivity
      have hx : 0 < (theta - Real.pi) / (2 * Real.pi) := div_pos (by linarith) hpi
      have h1 : 1 ≤ Nat.ceil ((theta - Real.pi) / (2 * Real.pi)) := Nat.ceil_pos.mpr hx
      have h2 : (theta - 2 * Real.pi - Real.pi) / (2 * Real.pi)
          = (theta - Real.pi) / (2 * Real.pi) - 1 := by
        field_simp
        ring
      have h3 : Nat.ceil ((theta - 2 * Real.pi - Real.pi) / (2 * Real.pi)) ≤ n := by
        rw [h2]
        have h4 : Nat.ceil ((theta - Real.pi) / (2 * Real.pi) - 1)
            ≤ Nat.ceil ((theta - Real.pi) / (2 * Real.pi)) - 1 := by
          apply Nat.ceil_le.mpr
          rw [Nat.cast_sub h1]
          have h5 := Nat.le_ceil ((theta - Real.pi) / (2 * Real.pi))
          push_cast
          linarith
        omega
      obtain ⟨hle, k, hk⟩ := ih (theta - 2 * Real.pi) h3
      refine ⟨hle, k + 1, ?_⟩
      rw [hk]
      push_cast
      ring
    · rw [wrapDown, dif_neg hgt]
      exact ⟨not_lt.mp hgt, 0, by push_cast; ring⟩

theorem wrapUp_spec : ∀ (n : Nat) (theta : ℝ),
    Nat.ceil ((-Real.pi - theta) / (2 * Real.pi)) ≤ n →
    (-Real.pi ≤ wrapUp theta ∧ (theta ≤ Real.pi → wrapUp theta ≤ Real.pi)) ∧
      ∃ k : ℕ, wrapUp theta = theta + 2 * Real.pi * k := by
  intro n
  induction n with
  | zero =>
    intro theta h
    have hpi : (0:ℝ) < 2 * Real.pi := by positivity
    have hx : (-Real.pi - theta) / (2 * Real.pi) ≤ 0 := by
      by_contra hc
      push_neg at hc
      have := Nat.ceil_pos.mpr hc
      omega
    have h2 : -Real.pi - theta = (-Real.pi - theta) / (2 * Real.pi) * (2 * Real.pi) := by
      field_simp
    have h3 : (-Real.pi - theta) / (2 * Real.pi) * (2 * Real.pi) ≤ 0 :=
      mul_nonpos_iff.mpr (Or.inr ⟨hx, hpi.le⟩)
    have hth : -Real.pi ≤ theta := by linarith [h2, h3]
    rw [wrapUp_eq_self theta hth]
    exact ⟨⟨hth, fun hub => hub⟩, 0, by push_cast; ring⟩
  | succ n ih =>
    intro theta h
    by_cases hlt : theta < -Real.pi
    · rw [wrapUp, dif_pos hlt]
      have hpi : (0:ℝ) < 2 * Real.pi := by positivity
      have hx : 0 < (-Real.pi - theta) / (2 * Real.pi) := div_pos (by linarith) hpi
      have h1 : 1 ≤ Nat.ceil ((-Real.pi - theta) / (2 * Real.pi)) := Nat.ceil_pos.mpr hx
      have h2 : (-Real.pi - (theta + 2 * Real.pi)) / (2 * Real.pi)
          = (-Real.pi - theta) / (2 * Real.pi) - 1 := by
        field_simp
        ring
      have h3 : Nat.ceil ((-Real.pi - (theta + 2 * Real.pi)) / (2 * Real.pi)) ≤ n := by
        rw [h2]
        have h4 : Nat.ceil ((-Real.pi - theta) / (2 * Real.pi) - 1)
            ≤ Nat.ceil ((-Real.pi - theta) / (2 * Real.pi)) - 1 := by
          apply Nat.ceil_le.mpr
          rw [Nat.cast_sub h1]
          have h5 := Nat.le_ceil ((-Real.pi - theta) / (2 * Real.pi))
          push_cast
          linarith
        omega
      obtain ⟨⟨hlb, hub⟩, k, hk⟩ := ih (theta + 2 * Real.pi) h3
      have hpos := Real.pi_pos
      refine ⟨⟨hlb, fun _ => hub (by linarith)⟩, k + 1, ?_⟩
      rw [hk]
      push_cast
      ring
    · rw [wrapUp, dif_neg hlt]
      exact ⟨⟨not_lt.mp hlt, fun hub => hub⟩, 0, by push_cast; ring⟩

theorem normalizeTheta_bounds (theta : ℝ) :
    -Real.pi ≤ normalizeTheta theta ∧ normalizeTheta theta ≤ Real.pi ∧
      ∃ k : ℤ, normalizeTheta theta = theta + 2 * Real.pi * k := by
  obtain ⟨hdle, k1, hk1⟩ :=
    wrapDown_spec (Nat.ceil ((theta - Real.pi) / (2 * Real.pi))) theta le_rfl
  obtain ⟨⟨hlb, hub⟩, k2, hk2⟩ :=
    wrapUp_spec (Nat.ceil ((-Real.pi - wrapDown theta) / (2 * Real.pi)))
      (wrapDown theta) le_rfl
  refine ⟨hlb, hub hdle, (k2 : ℤ) - (k1 : ℤ), ?_⟩
  simp only [normalizeTheta]
  rw [hk2, hk1]
  push_cast
  ring

theorem normalizeTheta_eq_self (theta : ℝ) (h1 : -Real.pi ≤ theta)
    (h2 : theta ≤ Real.pi) : normalizeTheta theta = theta := by
  show wrapUp (wrapDown theta) = theta
  rw [wrapDown_eq_self theta h2, wrapUp_eq_self theta h1]

/-- C7 counterexample: updating from the reset state with
wheelRadius 1, trackWidth 2, wheel angles (pi, -pi) and dt 1 gives dS = 0 and
dTheta = -pi, so the arc branch runs and theta lands on exactly -pi, which the
claimed interval (-pi, pi] excludes. -/
theorem odometry_theta_counterexample :
    (TwoWheelOdometry_Update 1 2 TwoWheelOdometry_Reset Real.pi (-Real.pi) 1).theta
        = -Real.pi ∧
      ¬ (-Real.pi <
        (TwoWheelOdometry_Update 1 2 TwoWheelOdometry_Reset Real.pi (-Real.pi) 1).theta) := by
  have hpi := Real.pi_gt_three
  have hkey :
      (TwoWheelOdometry_Update 1 2 TwoWheelOdometry_Reset Real.pi (-Real.pi) 1).theta
        = -Real.pi := by
    simp only [TwoWheelOdometry_Update, TwoWheelOdometry_Reset]
    split
    · rename_i hc
      have hd : (-Real.pi * 1 - 0 - (Real.pi * 1 - 0)) / 2 = -Real.pi := by ring
      rw [hd] at hc
      linarith [hc.2]
    · have hd : (0:ℝ) + (-Real.pi * 1 - 0 - (Real.pi * 1 - 0)) / 2 = -Real.pi := by ring
      rw [hd]
      exact normalizeTheta_eq_self (-Real.pi) le_rfl (by linarith)
  exact ⟨hkey, by rw [hkey]; exact lt_irrefl _⟩

/-- C7 (amended): each odometry update computes dS = (dL+dR)/2 and
dTheta = (dR-dL)/T from the wheel-arc deltas; if |dTheta| < 1e-6 it applies
the straight-line update x += dS*cos(theta), y += dS*sin(theta) with theta
unchanged, otherwise the midpoint-arc update x += dS*cos(theta + dTheta/2),
y += dS*sin(theta + dTheta/2) and theta += dTheta adjusted by an integer
multiple of 2*pi; velocity and omega become dS/dt and dTheta/dt. Amended:
assuming theta starts in [-pi, pi], after every update theta lies in the
CLOSED interval [-pi, pi] — the value -pi is attainable (see the
counterexample), so the claimed interval (-pi, pi] is wrong at its open
end. -/
theorem odometry_update_claim (wheelRadius trackWidth : ℝ) (st : OdomState)
    (posL posR dt : ℝ) (hlb : -Real.pi ≤ st.theta) (hub : st.theta ≤ Real.pi) :
    (|odomDTheta wheelRadius trackWidth st posL posR| < 1 / 1000000 →
      (TwoWheelOdometry_Update wheelRadius trackWidth st posL posR dt).x
          = st.x + odomDS wheelRadius st posL posR * Real.cos st.theta ∧
        (TwoWheelOdometry_Update wheelRadius trackWidth st posL posR dt).y
          = st.y + odomDS wheelRadius st posL posR * Real.sin st.theta ∧
        (TwoWheelOdometry_Update wheelRadius trackWidth st posL posR dt).theta
          = st.theta) ∧
    (1 / 1000000 ≤ |odomDTheta wheelRadius trackWidth st posL posR| →
      (TwoWheelOdometry_Update wheelRadius trackWidth st posL posR dt).x
          = st.x + odomDS wheelRadius st posL posR
              * Real.cos (st.theta + odomDTheta wheelRadius trackWidth st posL posR / 2) ∧
        (TwoWheelOdometry_Update wheelRadius trackWidth st posL posR dt).y
          = st.y + odomDS wheelRadius st posL posR
              * Real.sin (st.theta + odomDTheta wheelRadius trackWidth st posL posR / 2) ∧
        ∃ k : ℤ, (TwoWheelOdometry_Update wheelRadius trackWidth st posL posR dt).theta
          = st.theta + odomDTheta wheelRadius trackWidth st posL posR + 2 * Real.pi * k) ∧
    (TwoWheelOdometry_Update wheelRadius trackWidth st posL posR dt).velocity
        = odomDS wheelRadius st posL posR / dt ∧
    (TwoWheelOdometry_Update wheelRadius trackWidth st posL posR dt).omega
        = odomDTheta wheelRadius trackWidth st posL posR / dt ∧
    -Real.pi ≤ (TwoWheelOdometry_Update wheelRadius trackWidth st posL posR dt).theta ∧
    (TwoWheelOdometry_Update wheelRadius trackWidth st posL posR dt).theta ≤ Real.pi := by
  simp only [TwoWheelOdometry_Update]
  split
  · rename_i hc
    refine ⟨fun _ => ⟨rfl, rfl, rfl⟩, fun hge => ?_, rfl, rfl, hlb, hub⟩
    exact absurd (abs_lt.mpr ⟨hc.2, hc.1⟩) (not_lt.mpr hge)
  · rename_i hc
    obtain ⟨hnl, hnu, k, hk⟩ := normalizeTheta_bounds
      (st.theta + odomDTheta wheelRadius trackWidth st posL posR)
    refine ⟨fun habs => ?_, fun _ => ⟨rfl, rfl, k, hk⟩, rfl, rfl, hnl, hnu⟩
    exact absurd ⟨(abs_lt.mp habs).2, (abs_lt.mp habs).1⟩ hc

/-- Witness for `odometry_update_claim` at the reset state with both wheel
angles zero. -/
theorem odometry_update_claim_witness :
    (-Real.pi ≤ TwoWheelOdometry_Reset.theta ∧ TwoWheelOdometry_Reset.theta ≤ Real.pi) ∧
      (-Real.pi ≤ (TwoWheelOdometry_Update 1 2 TwoWheelOdometry_Reset 0 0 1).theta ∧
        (TwoWheelOdometry_Update 1 2 TwoWheelOdometry_Reset 0 0 1).theta ≤ Real.pi) :=
  ⟨⟨by show -Real.pi ≤ 0; linarith [Real.pi_pos], by show (0:ℝ) ≤ Real.pi; linarith [Real.pi_pos]⟩,
    (odometry_update_claim 1 2 TwoWheelOdometry_Reset 0 0 1
      (by show -Real.pi ≤ 0; linarith [Real.pi_pos])
      (by show (0:ℝ) ≤ Real.pi; linarith [Real.pi_pos])).2.2.2.2⟩
